import Mathlib

/-!
# Accessibility scan service (`main.go`): embedding and verified properties

The service has one handler, `analyzeHandler`.  It talks to three things it does not
own: the Go standard library (`encoding/json`, `net/http`), the browser driver
(`chromedp`) and the clock.  The embedding below models

* `encoding/json` decoding into `[]AxeResult` by a byte-at-a-time scanner with an explicit
  parse-state stack (the shape of Go's `scanner.go`), which also builds the value tree,
  followed by a typed decoder with Go's rules for `null`, unknown keys, key folding,
  type mismatches and slice reuse; the text of the errors it returns is a parameter
  (`Env.unmarshalErrorText`);
* `json.Encoder` by the value tree it writes (a nil slice is written as `null`);
* `http.Error` as "status code, body = message followed by a newline";
* the browser and the clock as an environment `Env` that supplies the outcome and the
  duration of every remote call; the handler threads the clock through the pipeline and
  records every external action in a trace.  A call that is cut short by the overall
  timeout of 60 s is a call whose outcome is an error;
* the page side, `JSON.stringify(results.violations)`, by the text it writes for a list of
  violations.

Go strings are modelled as Lean `String`s (sequences of Unicode scalar values): the strings
this program receives from the browser driver are valid UTF-8.  Time is in nanoseconds.
Response headers and log lines are left out.

The two poll loops have no bound of their own in the source; here they run on a budget of
iterations (76 and 61) that is proved never to run out, because every iteration advances
the clock by at least the sleep.
-/

namespace Analyser

/-! ## JSON values -/

/-- A JSON value.  Numbers keep their literal text; object members keep their order and
their duplicates. -/
inductive Json where
  | null
  | bool (b : Bool)
  | num (lit : String)
  | str (s : String)
  | arr (elems : List Json)
  | obj (members : List (String × Json))

/-! ## The scanner of `encoding/json` -/

/-- One unit of the content of a string literal: a character (written literally or by a
one-letter escape), or the 16-bit code of a `\uXXXX` escape. -/
inductive StrItem where
  | chr (c : Char)
  | esc (code : Nat)
  deriving DecidableEq

/-- The states of the scanner inside a number literal (`stateNeg`, `state0`, `state1`,
`stateDot`, `stateDot0`, `stateE`, `stateESign`, `stateE0`). -/
inductive NumState where
  | neg | zero | one | dot | dot0 | e | eSign | e0
  deriving DecidableEq

/-- The scanner's current step function, together with the text collected so far for the
value being read. -/
inductive Step where
  | beginValue
  | beginValueOrEmpty
  | beginString
  | beginStringOrEmpty
  | inString (acc : List StrItem)
  | inStringEsc (acc : List StrItem)
  | inStringEscU (acc : List StrItem) (n : Nat) (code : Nat)
  | inNumber (st : NumState) (lit : List Char)
  | inLiteral (expect : List Char) (v : Json)
  | endValue (last : Json)
  | endTop (v : Json)

/-- An entry of the scanner's parse-state stack (`parseArrayValue`, `parseObjectKey`,
`parseObjectValue`), with the members read so far. -/
inductive Frame where
  | arrayValue (done : List Json)
  | objectKey (done : List (String × Json))
  | objectValue (done : List (String × Json)) (key : String)

/-- The scanner: its step and its parse-state stack (innermost entry first). -/
structure Scanner where
  step : Step
  parseState : List Frame

/-- The nesting limit of the scanner (`maxNestingDepth`). -/
def maxNestingDepth : Nat := 10000

/-- Space characters of JSON text: space, tab, carriage return, line feed. -/
def isSpace (c : Char) : Bool :=
  c = ' ' || c = '\t' || c = '\r' || c = '\n'

/-- Decimal digit. -/
def isDigit (c : Char) : Bool := 48 ≤ c.toNat && c.toNat ≤ 57

/-- Decimal digit other than zero. -/
def isDigit19 (c : Char) : Bool := 49 ≤ c.toNat && c.toNat ≤ 57

/-- Value of a hexadecimal digit, either case. -/
def hexVal (c : Char) : Option Nat :=
  if 48 ≤ c.toNat ∧ c.toNat ≤ 57 then some (c.toNat - 48)
  else if 97 ≤ c.toNat ∧ c.toNat ≤ 102 then some (c.toNat - 87)
  else if 65 ≤ c.toNat ∧ c.toNat ≤ 70 then some (c.toNat - 55)
  else none

/-- The replacement character U+FFFD. -/
def replacementChar : Char := Char.ofNat 0xFFFD

/-- Decoding of a string literal's content (`unquote`): a `\u` escape in the surrogate
range combines with an immediately following `\u` escape when the two form a valid pair,
and otherwise becomes U+FFFD. -/
def unquote : List StrItem → List Char
  | [] => []
  | .chr c :: rest => c :: unquote rest
  | [.esc u] => [if 0xD800 ≤ u ∧ u < 0xE000 then replacementChar else Char.ofNat u]
  | .esc u :: .chr c :: rest =>
      (if 0xD800 ≤ u ∧ u < 0xE000 then replacementChar else Char.ofNat u) :: c :: unquote rest
  | .esc u :: .esc u2 :: rest =>
      if 0xD800 ≤ u ∧ u < 0xE000 then
        if u < 0xDC00 ∧ 0xDC00 ≤ u2 ∧ u2 < 0xE000 then
          Char.ofNat ((u - 0xD800) * 1024 + (u2 - 0xDC00) + 0x10000) :: unquote rest
        else replacementChar :: unquote (.esc u2 :: rest)
      else Char.ofNat u :: unquote (.esc u2 :: rest)

/-- Push a parse state (`pushParseState`): fails beyond the nesting limit. -/
def pushParseState (ps : List Frame) (f : Frame) (next : Step) : Option Scanner :=
  if ps.length + 1 ≤ maxNestingDepth then some ⟨next, f :: ps⟩ else none

/-- Pop a parse state (`popParseState`): `rest` is the stack after the pop and `v` the
value just completed. -/
def popParseState (v : Json) (rest : List Frame) : Scanner :=
  match rest with
  | [] => ⟨.endTop v, []⟩
  | _ :: _ => ⟨.endValue v, rest⟩

/-- After the top-level value only space may follow (`stateEndTop`). -/
def stateEndTop (v : Json) (c : Char) : Option Scanner :=
  if isSpace c then some ⟨.endTop v, []⟩ else none

/-- After a completed value (`stateEndValue`). -/
def stateEndValue (last : Json) (ps : List Frame) (c : Char) : Option Scanner :=
  match ps with
  | [] => stateEndTop last c
  | f :: rest =>
    if isSpace c then some ⟨.endValue last, ps⟩
    else match f with
      | .objectKey done =>
          if c = ':' then
            match last with
            | .str k => some ⟨.beginValue, .objectValue done k :: rest⟩
            | _ => none
          else none
      | .objectValue done k =>
          if c = ',' then some ⟨.beginString, .objectKey (done ++ [(k, last)]) :: rest⟩
          else if c = '}' then some (popParseState (.obj (done ++ [(k, last)])) rest)
          else none
      | .arrayValue done =>
          if c = ',' then some ⟨.beginValue, .arrayValue (done ++ [last]) :: rest⟩
          else if c = ']' then some (popParseState (.arr (done ++ [last])) rest)
          else none

/-- At the beginning of a value (`stateBeginValue`). -/
def stateBeginValue (ps : List Frame) (c : Char) : Option Scanner :=
  if isSpace c then some ⟨.beginValue, ps⟩
  else if c = '{' then pushParseState ps (.objectKey []) .beginStringOrEmpty
  else if c = '[' then pushParseState ps (.arrayValue []) .beginValueOrEmpty
  else if c = '"' then some ⟨.inString [], ps⟩
  else if c = '-' then some ⟨.inNumber .neg [c], ps⟩
  else if c = '0' then some ⟨.inNumber .zero [c], ps⟩
  else if c = 't' then some ⟨.inLiteral ['r', 'u', 'e'] (.bool true), ps⟩
  else if c = 'f' then some ⟨.inLiteral ['a', 'l', 's', 'e'] (.bool false), ps⟩
  else if c = 'n' then some ⟨.inLiteral ['u', 'l', 'l'] .null, ps⟩
  else if isDigit19 c then some ⟨.inNumber .one [c], ps⟩
  else none

/-- Just after `[` (`stateBeginValueOrEmpty`). -/
def stateBeginValueOrEmpty (ps : List Frame) (c : Char) : Option Scanner :=
  if isSpace c then some ⟨.beginValueOrEmpty, ps⟩
  else if c = ']' then
    match ps with
    | .arrayValue done :: rest => some (popParseState (.arr done) rest)
    | _ => none
  else stateBeginValue ps c

/-- Before an object key (`stateBeginString`). -/
def stateBeginString (ps : List Frame) (c : Char) : Option Scanner :=
  if isSpace c then some ⟨.beginString, ps⟩
  else if c = '"' then some ⟨.inString [], ps⟩
  else none

/-- Just after `{` (`stateBeginStringOrEmpty`). -/
def stateBeginStringOrEmpty (ps : List Frame) (c : Char) : Option Scanner :=
  if isSpace c then some ⟨.beginStringOrEmpty, ps⟩
  else if c = '}' then
    match ps with
    | .objectKey done :: rest => some (popParseState (.obj done) rest)
    | _ => none
  else stateBeginString ps c

/-- Inside a string literal (`stateInString`). -/
def stateInString (acc : List StrItem) (ps : List Frame) (c : Char) : Option Scanner :=
  if c = '"' then some ⟨.endValue (.str (String.mk (unquote acc))), ps⟩
  else if c = '\\' then some ⟨.inStringEsc acc, ps⟩
  else if c.toNat < 32 then none
  else some ⟨.inString (acc ++ [.chr c]), ps⟩

/-- After a backslash inside a string literal (`stateInStringEsc`). -/
def stateInStringEsc (acc : List StrItem) (ps : List Frame) (c : Char) : Option Scanner :=
  if c = 'b' then some ⟨.inString (acc ++ [.chr (Char.ofNat 8)]), ps⟩
  else if c = 'f' then some ⟨.inString (acc ++ [.chr (Char.ofNat 12)]), ps⟩
  else if c = 'n' then some ⟨.inString (acc ++ [.chr '\n']), ps⟩
  else if c = 'r' then some ⟨.inString (acc ++ [.chr '\r']), ps⟩
  else if c = 't' then some ⟨.inString (acc ++ [.chr '\t']), ps⟩
  else if c = '\\' then some ⟨.inString (acc ++ [.chr '\\']), ps⟩
  else if c = '/' then some ⟨.inString (acc ++ [.chr '/']), ps⟩
  else if c = '"' then some ⟨.inString (acc ++ [.chr '"']), ps⟩
  else if c = 'u' then some ⟨.inStringEscU acc 0 0, ps⟩
  else none

/-- Inside the four hexadecimal digits of a `\u` escape (`stateInStringEscU` to
`stateInStringEscU123`): `n` digits read so far, with value `code`. -/
def stateInStringEscU (acc : List StrItem) (n code : Nat) (ps : List Frame) (c : Char) :
    Option Scanner :=
  match hexVal c with
  | none => none
  | some h =>
    if n = 3 then some ⟨.inString (acc ++ [.esc (code * 16 + h)]), ps⟩
    else some ⟨.inStringEscU acc (n + 1) (code * 16 + h), ps⟩

/-- After the integer part of a number (`state0`). -/
def state0 (lit : List Char) (ps : List Frame) (c : Char) : Option Scanner :=
  if c = '.' then some ⟨.inNumber .dot (lit ++ [c]), ps⟩
  else if c = 'e' ∨ c = 'E' then some ⟨.inNumber .e (lit ++ [c]), ps⟩
  else stateEndValue (.num (String.mk lit)) ps c

/-- After the sign of an exponent, or in its place (`stateESign`). -/
def stateESign (lit : List Char) (ps : List Frame) (c : Char) : Option Scanner :=
  if isDigit c then some ⟨.inNumber .e0 (lit ++ [c]), ps⟩ else none

/-- Inside a number literal. -/
def stateNumber (st : NumState) (lit : List Char) (ps : List Frame) (c : Char) :
    Option Scanner :=
  match st with
  | .neg =>
      if c = '0' then some ⟨.inNumber .zero (lit ++ [c]), ps⟩
      else if isDigit19 c then some ⟨.inNumber .one (lit ++ [c]), ps⟩
      else none
  | .one =>
      if isDigit c then some ⟨.inNumber .one (lit ++ [c]), ps⟩ else state0 lit ps c
  | .zero => state0 lit ps c
  | .dot =>
      if isDigit c then some ⟨.inNumber .dot0 (lit ++ [c]), ps⟩ else none
  | .dot0 =>
      if isDigit c then some ⟨.inNumber .dot0 (lit ++ [c]), ps⟩
      else if c = 'e' ∨ c = 'E' then some ⟨.inNumber .e (lit ++ [c]), ps⟩
      else stateEndValue (.num (String.mk lit)) ps c
  | .e =>
      if c = '+' ∨ c = '-' then some ⟨.inNumber .eSign (lit ++ [c]), ps⟩
      else stateESign lit ps c
  | .eSign => stateESign lit ps c
  | .e0 =>
      if isDigit c then some ⟨.inNumber .e0 (lit ++ [c]), ps⟩
      else stateEndValue (.num (String.mk lit)) ps c

/-- Inside `true`, `false` or `null` (`stateT` to `stateNul`): `expect` is what is left of
the word. -/
def stateLiteral (expect : List Char) (v : Json) (ps : List Frame) (c : Char) :
    Option Scanner :=
  match expect with
  | [] => none
  | [x] => if c = x then some ⟨.endValue v, ps⟩ else none
  | x :: y :: rest => if c = x then some ⟨.inLiteral (y :: rest) v, ps⟩ else none

/-- One step of the scanner on one character; `none` is `scanError`. -/
def Scanner.next (s : Scanner) (c : Char) : Option Scanner :=
  match s.step with
  | .beginValue => stateBeginValue s.parseState c
  | .beginValueOrEmpty => stateBeginValueOrEmpty s.parseState c
  | .beginString => stateBeginString s.parseState c
  | .beginStringOrEmpty => stateBeginStringOrEmpty s.parseState c
  | .inString acc => stateInString acc s.parseState c
  | .inStringEsc acc => stateInStringEsc acc s.parseState c
  | .inStringEscU acc n code => stateInStringEscU acc n code s.parseState c
  | .inNumber st lit => stateNumber st lit s.parseState c
  | .inLiteral expect v => stateLiteral expect v s.parseState c
  | .endValue last => stateEndValue last s.parseState c
  | .endTop v => stateEndTop v c

/-- Run the scanner over a sequence of characters. -/
def scan : Scanner → List Char → Option Scanner
  | s, [] => some s
  | s, c :: cs =>
    match s.next c with
    | none => none
    | some s1 => scan s1 cs

/-- End of input (`eof`): the value is complete, or becomes complete when a space is
fed. -/
def Scanner.eof (s : Scanner) : Option Json :=
  match s.step with
  | .endTop v => some v
  | _ =>
    match s.next ' ' with
    | some ⟨.endTop v, _⟩ => some v
    | _ => none

/-- The scanner before the first character (`reset`). -/
def Scanner.init : Scanner := ⟨.beginValue, []⟩

/-- The value tree of a JSON text; `none` when the text is not one valid JSON value
(`checkValid` fails). -/
def parseJson (data : String) : Option Json :=
  match scan Scanner.init data.data with
  | none => none
  | some s => s.eof

/-! ## The data model of `main.go` -/

/-- A Go slice: `nil`, or a window of `elems` on a backing array whose cells past the
length (`spare`) still hold what was last written there.  Only `elems` is visible to the
program; `spare` matters when the decoder extends the slice again. -/
inductive GoSlice (α : Type) where
  | nil
  | mk (elems : List α) (spare : List α)
  deriving DecidableEq

/-- Length of a slice (`len`); the nil slice has length 0. -/
def GoSlice.len {α : Type} : GoSlice α → Nat
  | .nil => 0
  | .mk elems _ => elems.length

/-- The cells of the backing array, from index 0. -/
def GoSlice.backing {α : Type} : GoSlice α → List α
  | .nil => []
  | .mk elems spare => elems ++ spare

/-- Type `Node` of `main.go`. -/
structure Node where
  Impact : String
  HTML : String
  Target : GoSlice String
  FailureSummary : String
  deriving DecidableEq

/-- Type `AxeResult` of `main.go`. -/
structure AxeResult where
  ID : String
  Impact : String
  Tags : GoSlice String
  Description : String
  Help : String
  HelpURL : String
  Nodes : GoSlice Node
  deriving DecidableEq

/-- The zero value of `Node`. -/
def Node.zero : Node := ⟨"", "", .nil, ""⟩

/-- The zero value of `AxeResult`. -/
def AxeResult.zero : AxeResult := ⟨"", "", .nil, "", "", "", .nil⟩

/-- The fields of `Node`. -/
inductive NodeField where
  | impact | html | target | failureSummary
  deriving DecidableEq

/-- The fields of `AxeResult`. -/
inductive AxeField where
  | id | impact | tags | description | help | helpUrl | nodes
  deriving DecidableEq

/-- The `json` tags of the fields of `Node`, in declaration order. -/
def nodeFields : List (String × NodeField) :=
  [("impact", .impact), ("html", .html), ("target", .target),
   ("failureSummary", .failureSummary)]

/-- The `json` tags of the fields of `AxeResult`, in declaration order. -/
def axeFields : List (String × AxeField) :=
  [("id", .id), ("impact", .impact), ("tags", .tags), ("description", .description),
   ("help", .help), ("helpUrl", .helpUrl), ("nodes", .nodes)]

/-! ## Decoding: `json.Unmarshal` into `[]AxeResult` -/

/-- Case folding of one character of a key.  Go folds every rune to the smallest rune of
its simple-fold orbit; the only non-ASCII runes whose orbit contains an ASCII letter are
U+017F (long s) and U+212A (Kelvin sign), so on comparisons with the ASCII field names of
this program the folding below gives the same answers. -/
def foldRune (c : Char) : Char :=
  if 97 ≤ c.toNat ∧ c.toNat ≤ 122 then Char.ofNat (c.toNat - 32)
  else if c.toNat = 0x17F then 'S'
  else if c.toNat = 0x212A then 'K'
  else c

/-- Folded form of a name (`foldName`). -/
def foldName (s : String) : List Char := s.data.map foldRune

/-- The struct field an object key selects: an exact match of the tag if there is one,
otherwise a match up to case folding, otherwise none (the member is skipped). -/
def findField {F : Type} (fields : List (String × F)) (key : String) : Option F :=
  match fields.find? (fun f => f.1 = key) with
  | some f => some f.2
  | none => (fields.find? (fun f => foldName f.1 = foldName key)).map (fun f => f.2)

/-- Store a JSON value into a Go `string`.  The flag is `false` when the value does not
fit (an `UnmarshalTypeError` is saved and the target is left as it was); `null` leaves a
string unchanged without error. -/
def storeString (old : String) : Json → String × Bool
  | .str s => (s, true)
  | .null => (old, true)
  | _ => (old, false)

/-- Decode the elements of a JSON array into the cells of a backing array, cell `i` for
element `i`; cells past the end of the backing array start from the zero value.  Returns
the decoded elements, the cells left over, and whether every element fit. -/
def arrayElems {α : Type} (store : α → Json → α × Bool) (zero : α) :
    List α → List Json → List α × List α × Bool
  | cells, [] => ([], cells, true)
  | cells, j :: js =>
    let r := store (cells.headD zero) j
    let rs := arrayElems store zero cells.tail js
    (r.1 :: rs.1, rs.2.1, r.2 && rs.2.2)

/-- Store a JSON value into a Go slice (`array` and `literalStore`): an empty array gives a
fresh empty slice, a non-empty array is decoded into the slice's own cells, `null` gives
the nil slice, anything else does not fit. -/
def storeSlice {α : Type} (store : α → Json → α × Bool) (zero : α) (old : GoSlice α) :
    Json → GoSlice α × Bool
  | .arr [] => (.mk [] [], true)
  | .arr (j :: js) =>
    let r := arrayElems store zero old.backing (j :: js)
    (.mk r.1 r.2.1, r.2.2)
  | .null => (.nil, true)
  | _ => (old, false)

/-- Store one object member into a `Node`. -/
def Node.setMember (acc : Node × Bool) (kv : String × Json) : Node × Bool :=
  match findField nodeFields kv.1 with
  | none => acc
  | some .impact =>
    let r := storeString acc.1.Impact kv.2
    ({ acc.1 with Impact := r.1 }, acc.2 && r.2)
  | some .html =>
    let r := storeString acc.1.HTML kv.2
    ({ acc.1 with HTML := r.1 }, acc.2 && r.2)
  | some .target =>
    let r := storeSlice storeString "" acc.1.Target kv.2
    ({ acc.1 with Target := r.1 }, acc.2 && r.2)
  | some .failureSummary =>
    let r := storeString acc.1.FailureSummary kv.2
    ({ acc.1 with FailureSummary := r.1 }, acc.2 && r.2)

/-- Store a JSON value into a `Node` (`object`): members are stored in order, later ones
over earlier ones; `null` leaves the struct unchanged; anything else does not fit. -/
def storeNode (old : Node) : Json → Node × Bool
  | .obj members => members.foldl Node.setMember (old, true)
  | .null => (old, true)
  | _ => (old, false)

/-- Store one object member into an `AxeResult`. -/
def AxeResult.setMember (acc : AxeResult × Bool) (kv : String × Json) : AxeResult × Bool :=
  match findField axeFields kv.1 with
  | none => acc
  | some .id =>
    let r := storeString acc.1.ID kv.2
    ({ acc.1 with ID := r.1 }, acc.2 && r.2)
  | some .impact =>
    let r := storeString acc.1.Impact kv.2
    ({ acc.1 with Impact := r.1 }, acc.2 && r.2)
  | some .tags =>
    let r := storeSlice storeString "" acc.1.Tags kv.2
    ({ acc.1 with Tags := r.1 }, acc.2 && r.2)
  | some .description =>
    let r := storeString acc.1.Description kv.2
    ({ acc.1 with Description := r.1 }, acc.2 && r.2)
  | some .help =>
    let r := storeString acc.1.Help kv.2
    ({ acc.1 with Help := r.1 }, acc.2 && r.2)
  | some .helpUrl =>
    let r := storeString acc.1.HelpURL kv.2
    ({ acc.1 with HelpURL := r.1 }, acc.2 && r.2)
  | some .nodes =>
    let r := storeSlice storeNode Node.zero acc.1.Nodes kv.2
    ({ acc.1 with Nodes := r.1 }, acc.2 && r.2)

/-- Store a JSON value into an `AxeResult`. -/
def storeAxeResult (old : AxeResult) : Json → AxeResult × Bool
  | .obj members => members.foldl AxeResult.setMember (old, true)
  | .null => (old, true)
  | _ => (old, false)

/-- The two kinds of error `json.Unmarshal` returns here: the text is not valid JSON
(`SyntaxError`), or it is valid and some value does not fit its Go target
(`UnmarshalTypeError`). -/
inductive UnmarshalError where
  | syntaxError
  | typeError
  deriving DecidableEq

deriving instance DecidableEq for Except

/-- Function `json.Unmarshal(data, &v)` for `v` of type `[]AxeResult`: the text is
validated first, then decoded into `v`; a value that does not fit is skipped, decoding
goes on, and the error is returned at the end. -/
def Unmarshal (data : String) (v : GoSlice AxeResult) :
    Except UnmarshalError (GoSlice AxeResult) :=
  match parseJson data with
  | none => .error .syntaxError
  | some j =>
    let r := storeSlice storeAxeResult AxeResult.zero v j
    if r.2 then .ok r.1 else .error .typeError

/-! ## Encoding: the value tree `json.Encoder` writes -/

/-- Encoding of a `[]string`: a nil slice is written as `null`. -/
def marshalStrings : GoSlice String → Json
  | .nil => .null
  | .mk elems _ => .arr (elems.map Json.str)

/-- Encoding of a `Node`: fields in declaration order under their tags. -/
def marshalNode (n : Node) : Json :=
  .obj [("impact", .str n.Impact), ("html", .str n.HTML), ("target", marshalStrings n.Target),
        ("failureSummary", .str n.FailureSummary)]

/-- Encoding of a `[]Node`. -/
def marshalNodes : GoSlice Node → Json
  | .nil => .null
  | .mk elems _ => .arr (elems.map marshalNode)

/-- Encoding of an `AxeResult`. -/
def marshalAxeResult (a : AxeResult) : Json :=
  .obj [("id", .str a.ID), ("impact", .str a.Impact), ("tags", marshalStrings a.Tags),
        ("description", .str a.Description), ("help", .str a.Help),
        ("helpUrl", .str a.HelpURL), ("nodes", marshalNodes a.Nodes)]

/-- Encoding of a `[]AxeResult`. -/
def marshalViolations : GoSlice AxeResult → Json
  | .nil => .null
  | .mk elems _ => .arr (elems.map marshalAxeResult)

/-! ## The environment: browser, clock -/

/-- One second, in nanoseconds. -/
def second : Nat := 1000000000

/-- One millisecond, in nanoseconds. -/
def millisecond : Nat := 1000000

/-- What one call into the browser driver does: how long it takes, and the error text it
returns or its value. -/
structure Call (α : Type) where
  dur : Nat
  result : Except String α

/-- Everything outside the handler.  The outcome of each remote call is free; the two poll
loops index their calls by iteration.  A sleep lasts its nominal duration plus a
non-negative overshoot. -/
structure Env where
  /-- The clock when the handler builds its browser context. -/
  start : Nat
  /-- Starting the browser on the first `Run`. -/
  startBrowser : Call Unit
  /-- Action `Navigate(targetURL)`. -/
  navigate : String → Call Unit
  /-- Action `WaitVisible("body")`. -/
  waitVisible : Call Unit
  /-- Evaluating the injection script. -/
  injectAxe : Call Unit
  /-- Evaluating the engine-loaded expression, in iteration `i` of the first loop. -/
  axeLoaded : Nat → Call Bool
  /-- Overshoot of the 200 ms sleep of iteration `i` of the first loop. -/
  sleepLoad : Nat → Nat
  /-- Evaluating the script that starts the analysis. -/
  startAnalysis : Call Unit
  /-- Evaluating `window.axeComplete`, in iteration `i` of the second loop. -/
  axeComplete : Nat → Call Bool
  /-- Overshoot of the 500 ms sleep of iteration `i` of the second loop. -/
  sleepPoll : Nat → Nat
  /-- Evaluating `window.axeResults` into the result string. -/
  axeResults : Call String
  /-- Text of `time.Now().Format(time.RFC3339)` when the response is assembled. -/
  timestamp : String
  /-- Text of the error `json.Unmarshal` returns on a given input (`err.Error()`). -/
  unmarshalErrorText : String → String

/-- An external action of the handler. -/
inductive Action where
  | newExecAllocator
  | newContext
  | withTimeout (d : Nat)
  | startBrowser
  | navigate (url : String)
  | waitVisible (sel : String)
  | evaluate (expr : String)
  | sleep (d : Nat)
  deriving DecidableEq

/-- An action with the clock reading at which it starts. -/
structure Event where
  time : Nat
  action : Action
  deriving DecidableEq

/-- The script that injects the engine. -/
def injectScript : String :=
  "\n\t\t\t(function() \x7b\n\t\t\t\tconst script = document.createElement('script');\n\t\t\t\tscript.src = 'https://cdnjs.cloudflare.com/ajax/libs/axe-core/4.8.2/axe.min.js';\n\t\t\t\tdocument.head.appendChild(script);\n\t\t\t\x7d)();\n\t\t"

/-- The expression that tells whether the engine is loaded. -/
def axeLoadedExpr : String :=
  "typeof axe !== 'undefined' && typeof axe.run === 'function'"

/-- The script that resets the two globals and starts the analysis. -/
def runScript : String :=
  "\n\t\t\twindow.axeResults = null;\n\t\t\twindow.axeComplete = false;\n\t\t\taxe.run().then((results) => \x7b\n\t\t\t\twindow.axeResults = JSON.stringify(results.violations);\n\t\t\t\twindow.axeComplete = true;\n\t\t\t\x7d).catch((error) => \x7b\n\t\t\t\tconsole.error('Axe run error:', error);\n\t\t\t\twindow.axeResults = JSON.stringify([]);\n\t\t\t\twindow.axeComplete = true;\n\t\t\t\x7d);\n\t\t"

/-- The completion flag. -/
def axeCompleteExpr : String := "window.axeComplete"

/-- The result holder. -/
def axeResultsExpr : String := "window.axeResults"

/-- State after a task of the pipeline: the error it returned (`none` for `nil`), the
clock, the actions it performed, and the captured variable `violationsJSON`. -/
structure TaskResult where
  err : Option String
  now : Nat
  trace : List Event
  violationsJSON : String
  deriving DecidableEq

/-- A task: from the clock and the current `violationsJSON` to a result; `none` when the
model's iteration budget is used up (shown below never to happen). -/
abbrev Task := Nat → String → Option TaskResult

/-- A task that is one remote call without a value. -/
def callTask (c : Call Unit) (a : Action) : Task := fun now vj =>
  some ⟨match c.result with
        | .error e => some e
        | .ok _ => none,
        now + c.dur, [⟨now, a⟩], vj⟩

/-- The body of the first `ActionFunc`, from its loop test on: wait until the engine is
loaded, for at most 15 s.  `i` counts the iterations, `fuel` bounds them. -/
def waitForAxeLoop (env : Env) (timeout : Nat) (vj : String) :
    Nat → Nat → Nat → Option TaskResult
  | 0, _, _ => none
  | fuel + 1, i, now =>
    if now < timeout then
      let c := env.axeLoaded i
      match c.result with
      | .error e => some ⟨some e, now + c.dur, [⟨now, .evaluate axeLoadedExpr⟩], vj⟩
      | .ok true => some ⟨none, now + c.dur, [⟨now, .evaluate axeLoadedExpr⟩], vj⟩
      | .ok false =>
        match waitForAxeLoop env timeout vj fuel (i + 1)
            (now + c.dur + (200 * millisecond + env.sleepLoad i)) with
        | none => none
        | some r =>
          some { r with trace := ⟨now, .evaluate axeLoadedExpr⟩ ::
                                 ⟨now + c.dur, .sleep (200 * millisecond)⟩ :: r.trace }
    else some ⟨some "timeout waiting for axe-core to load", now, [], vj⟩

/-- Iterations that always suffice for the first loop: the clock gains at least 200 ms
per iteration and the deadline is 15 s away. -/
def waitForAxeFuel : Nat := 15 * second / (200 * millisecond) + 1

/-- The first `ActionFunc`: `timeout := time.Now().Add(15 * time.Second)`, then the
loop. -/
def waitForAxe (env : Env) : Task := fun now vj =>
  waitForAxeLoop env (now + 15 * second) vj waitForAxeFuel 0 now

/-- The body of the second `ActionFunc`, from its loop test on: poll the completion flag
for at most 30 s, and read the result holder once the flag is set. -/
def pollCompleteLoop (env : Env) (timeout : Nat) (vj : String) :
    Nat → Nat → Nat → Option TaskResult
  | 0, _, _ => none
  | fuel + 1, i, now =>
    if now < timeout then
      let c := env.axeComplete i
      match c.result with
      | .error e => some ⟨some e, now + c.dur, [⟨now, .evaluate axeCompleteExpr⟩], vj⟩
      | .ok true =>
        let g := env.axeResults
        match g.result with
        | .error e =>
          some ⟨some e, now + c.dur + g.dur,
                [⟨now, .evaluate axeCompleteExpr⟩, ⟨now + c.dur, .evaluate axeResultsExpr⟩], vj⟩
        | .ok v =>
          some ⟨none, now + c.dur + g.dur,
                [⟨now, .evaluate axeCompleteExpr⟩, ⟨now + c.dur, .evaluate axeResultsExpr⟩], v⟩
      | .ok false =>
        match pollCompleteLoop env timeout vj fuel (i + 1)
            (now + c.dur + (500 * millisecond + env.sleepPoll i)) with
        | none => none
        | some r =>
          some { r with trace := ⟨now, .evaluate axeCompleteExpr⟩ ::
                                 ⟨now + c.dur, .sleep (500 * millisecond)⟩ :: r.trace }
    else some ⟨some "timeout waiting for axe analysis to complete", now, [], vj⟩

/-- Iterations that always suffice for the second loop. -/
def pollCompleteFuel : Nat := 30 * second / (500 * millisecond) + 1

/-- The second `ActionFunc`: `timeout := time.Now().Add(30 * time.Second)`, then the
loop. -/
def pollComplete (env : Env) : Task := fun now vj =>
  pollCompleteLoop env (now + 30 * second) vj pollCompleteFuel 0 now

/-- Run tasks in order and stop at the first error (`Tasks.Do`). -/
def runTasks : List Task → Task
  | [], now, vj => some ⟨none, now, [], vj⟩
  | t :: ts, now, vj =>
    match t now vj with
    | none => none
    | some r =>
      match r.err with
      | some _ => some r
      | none =>
        match runTasks ts r.now r.violationsJSON with
        | none => none
        | some r2 => some { r2 with trace := r.trace ++ r2.trace }

/-- The tasks that come before the completion poll: browser start, navigation, wait for
`body`, injection, engine-load wait, analysis start. -/
def tasksBeforePoll (env : Env) (targetURL : String) : List Task :=
  [callTask env.startBrowser .startBrowser,
   callTask (env.navigate targetURL) (.navigate targetURL),
   callTask env.waitVisible (.waitVisible "body"),
   callTask env.injectAxe (.evaluate injectScript),
   waitForAxe env,
   callTask env.startAnalysis (.evaluate runScript)]

/-- The call `chromedp.Run(ctx, ...)` of the handler: the browser is started on first use,
then the six actions run in order. -/
def chromedpRun (env : Env) (targetURL : String) : Task :=
  runTasks (tasksBeforePoll env targetURL ++ [pollComplete env])

/-! ## The handler -/

/-- An HTTP request, as far as the handler reads it: the method and the parsed query. -/
structure Request where
  method : String
  query : List (String × String)

/-- Method `Get` of `url.Values`: the first value of the key, or the empty string. -/
def Request.queryGet (r : Request) (key : String) : String :=
  (r.query.lookup key).getD ""

/-- The response map of the success path. -/
structure ScanResponse where
  url : String
  timestamp : String
  violations : GoSlice AxeResult
  count : Nat
  deriving DecidableEq

/-- What `json.Encoder` writes for the response map: keys in sorted order. -/
def marshalResponse (r : ScanResponse) : Json :=
  .obj [("count", .num (toString r.count)), ("timestamp", .str r.timestamp),
        ("url", .str r.url), ("violations", marshalViolations r.violations)]

/-- A response body: text written by `http.Error`, or the encoding of a response map. -/
inductive Body where
  | text (s : String)
  | encoded (r : ScanResponse)
  deriving DecidableEq

/-- Status code and body of the response. -/
structure Response where
  status : Nat
  body : Body
  deriving DecidableEq

/-- Function `http.Error`: the status code, and the message followed by a newline. -/
def httpError (msg : String) (code : Nat) : Response := ⟨code, .text (msg ++ "\n")⟩

/-- What a call of the handler does: the response and the external actions, in order. -/
structure Outcome where
  response : Response
  trace : List Event
  deriving DecidableEq

/-- The target URL: the `url` query parameter, or the placeholder when it is empty. -/
def targetURL (r : Request) : String :=
  if r.queryGet "url" = "" then "Type you URL" else r.queryGet "url"

/-- The events before the pipeline: allocator, context, overall timeout of 60 s. -/
def setupTrace (env : Env) : List Event :=
  [⟨env.start, .newExecAllocator⟩, ⟨env.start, .newContext⟩,
   ⟨env.start, .withTimeout (60 * second)⟩]

/-- Function `analyzeHandler` of `main.go`.  Headers and log lines are not modelled, and
writing the encoded response is taken to succeed. -/
def analyzeHandler (env : Env) (r : Request) : Option Outcome :=
  if r.method ≠ "GET" then
    some ⟨httpError "Method not allowed" 405, []⟩
  else
    let setup := setupTrace env
    match chromedpRun env (targetURL r) env.start "" with
    | none => none
    | some run =>
      match run.err with
      | some e =>
        some ⟨httpError ("\x7b\"error\": \"Failed to analyze: " ++ e ++ "\"\x7d") 500,
              setup ++ run.trace⟩
      | none =>
        let violationsJSON := if run.violationsJSON = "" then "[]" else run.violationsJSON
        match Unmarshal violationsJSON .nil with
        | .error _ =>
          some ⟨httpError ("\x7b\"error\": \"Failed to parse results: " ++
                  env.unmarshalErrorText violationsJSON ++ "\"\x7d") 500,
                setup ++ run.trace⟩
        | .ok violations =>
          some ⟨⟨200, .encoded ⟨targetURL r, env.timestamp, violations, violations.len⟩⟩,
                setup ++ run.trace⟩

/-! ## Reading JSON values -/

/-- Member of a JSON object by key (the first one with that key). -/
def Json.field (k : String) : Json → Option Json
  | .obj members => members.lookup k
  | _ => none

/-- The elements of a JSON array; other values have none. -/
def Json.elems : Json → List Json
  | .arr xs => xs
  | _ => []

/-- Whether a value is a JSON array. -/
def Json.isArray : Json → Bool
  | .arr _ => true
  | _ => false

/-- Whether a value is JSON `null`. -/
def Json.isNull : Json → Bool
  | .null => true
  | _ => false

/-! ## Notions of the specification -/

/-- Whether a text is a JSON object of the shape `{"error": <string>}`. -/
def isErrorObject (body : String) : Bool :=
  match parseJson body with
  | some (.obj [(k, .str _)]) => k = "error"
  | _ => false

/-- Characters that may stand unescaped inside a JSON string literal: everything but the
double quote, the backslash and the control characters below U+0020. -/
def safeChar (c : Char) : Bool := c != '"' && c != '\\' && decide (32 ≤ c.toNat)

/-- A text made only of characters that need no escape in a JSON string literal. -/
def jsonSafe (s : String) : Bool := s.data.all safeChar

/-- Whether a value is a JSON string. -/
def Json.isStr : Json → Bool
  | .str _ => true
  | _ => false

/-- Whether a value is a JSON array of strings. -/
def Json.isStrs : Json → Bool
  | .arr xs => xs.all Json.isStr
  | _ => false

/-- The string a JSON string holds. -/
def Json.strVal : Json → String
  | .str s => s
  | _ => ""

/-- The strings a JSON array of strings holds. -/
def Json.strsVal : Json → GoSlice String
  | .arr xs => .mk (xs.map Json.strVal) []
  | _ => .nil

/-- The value of a member of an object, by key; `null` when there is no such member. -/
def memberOf (members : List (String × Json)) (k : String) : Json :=
  (members.lookup k).getD .null

/-- The keys of a serialized record are in order: every property name of the record is
the key of exactly one member, and any further member has a key that is not a property
name, in whatever letter case. -/
def keysOk (names : List String) (members : List (String × Json)) : Bool :=
  names.all (fun n => (members.map Prod.fst).count n == 1) &&
    members.all (fun kv => names.contains kv.1 ||
      names.all (fun n => foldName n != foldName kv.1))

/-- The property names of a violation node. -/
def nodeNames : List String := nodeFields.map Prod.fst

/-- The property names of a violation. -/
def axeNames : List String := axeFields.map Prod.fst

/-- A serialized violation node in the words of the specification's data model: an
object with an impact level, an HTML snippet, a target selector path (sequence of
strings) and a failure summary. -/
def isViolationNode : Json → Bool
  | .obj members =>
    keysOk nodeNames members &&
      (memberOf members "impact").isStr && (memberOf members "html").isStr &&
      (memberOf members "target").isStrs && (memberOf members "failureSummary").isStr
  | _ => false

/-- Whether a value is a JSON array of violation nodes. -/
def Json.isNodes : Json → Bool
  | .arr xs => xs.all isViolationNode
  | _ => false

/-- A serialized violation in the words of the specification's data model: an object with
a rule identifier, an impact level, tags (sequence of strings), a description, a help
text, a help URL and a sequence of violation nodes. -/
def isViolation : Json → Bool
  | .obj members =>
    keysOk axeNames members &&
      (memberOf members "id").isStr && (memberOf members "impact").isStr &&
      (memberOf members "tags").isStrs && (memberOf members "description").isStr &&
      (memberOf members "help").isStr && (memberOf members "helpUrl").isStr &&
      (memberOf members "nodes").isNodes
  | _ => false

/-- A well-formed serialized violation array in the words of the specification: a JSON
text whose value is an array of violations. -/
def isViolationArray (s : String) : Bool :=
  match parseJson s with
  | some (.arr xs) => xs.all isViolation
  | _ => false

/-- The node a serialized violation node stands for: each field is the value of the
member of that name. -/
def readNodeMembers (members : List (String × Json)) : Node :=
  ⟨(memberOf members "impact").strVal, (memberOf members "html").strVal,
   (memberOf members "target").strsVal, (memberOf members "failureSummary").strVal⟩

/-- The node a JSON value stands for. -/
def readNode : Json → Node
  | .obj members => readNodeMembers members
  | _ => Node.zero

/-- The nodes a JSON array of violation nodes holds. -/
def Json.nodesVal : Json → GoSlice Node
  | .arr xs => .mk (xs.map readNode) []
  | _ => .nil

/-- The violation a serialized violation stands for: each field is the value of the
member of that name. -/
def readViolationMembers (members : List (String × Json)) : AxeResult :=
  ⟨(memberOf members "id").strVal, (memberOf members "impact").strVal,
   (memberOf members "tags").strsVal, (memberOf members "description").strVal,
   (memberOf members "help").strVal, (memberOf members "helpUrl").strVal,
   (memberOf members "nodes").nodesVal⟩

/-- The violation a JSON value stands for. -/
def readViolation : Json → AxeResult
  | .obj members => readViolationMembers members
  | _ => AxeResult.zero

/-- Whether a JSON value fits a Go `string`: a string, or `null`. -/
def fitsString : Json → Bool
  | .str _ => true
  | .null => true
  | _ => false

/-- Whether a JSON value fits a Go slice: `null`, or an array whose elements fit. -/
def fitsSlice (fitsElem : Json → Bool) : Json → Bool
  | .arr xs => xs.all fitsElem
  | .null => true
  | _ => false

/-- Whether an object member fits a `Node`: its key selects no field, or its value fits
the field the key selects. -/
def nodeMemberFits (kv : String × Json) : Bool :=
  match findField nodeFields kv.1 with
  | none => true
  | some .target => fitsSlice fitsString kv.2
  | some _ => fitsString kv.2

/-- Whether a JSON value fits a `Node`: `null`, or an object whose members fit. -/
def fitsNode : Json → Bool
  | .obj members => members.all nodeMemberFits
  | .null => true
  | _ => false

/-- Whether an object member fits an `AxeResult`: its key selects no field, or its value
fits the field the key selects. -/
def axeMemberFits (kv : String × Json) : Bool :=
  match findField axeFields kv.1 with
  | none => true
  | some .tags => fitsSlice fitsString kv.2
  | some .nodes => fitsSlice fitsNode kv.2
  | some _ => fitsString kv.2

/-- Whether a JSON value fits an `AxeResult`: `null`, or an object whose members fit. -/
def fitsAxeResult : Json → Bool
  | .obj members => members.all axeMemberFits
  | .null => true
  | _ => false

/-- Whether a JSON value has the types of a `[]AxeResult`: `null`, or an array of values
that fit an `AxeResult`.  A value that does not is one with a value of the wrong JSON type
at the top, at an element, or at a member whose key names a field. -/
def fitsViolations : Json → Bool := fitsSlice fitsAxeResult

/-! ## The page side: `JSON.stringify(results.violations)` -/

/-- A node of a violation as the page holds it, with the properties the Go struct
reads. -/
structure ViolationNode where
  impact : String
  html : String
  target : List String
  failureSummary : String
  deriving DecidableEq

/-- A violation as the page holds it, with the properties the Go struct reads. -/
structure Violation where
  id : String
  impact : String
  tags : List String
  description : String
  help : String
  helpUrl : String
  nodes : List ViolationNode
  deriving DecidableEq

/-- Lower-case hexadecimal digit of a number below 16. -/
def hexDigit (n : Nat) : Char :=
  if n < 10 then Char.ofNat (48 + n) else Char.ofNat (87 + n)

/-- Whether `JSON.stringify` writes the character as a `\u00XX` escape: a control character
without a one-letter escape. -/
def needsUEscape (c : Char) : Bool :=
  decide (c.toNat < 32) && c != Char.ofNat 8 && c != '\t' && c != '\n' && c != Char.ofNat 12 &&
    c != '\r'

/-- The text `JSON.stringify` writes for one character of a string (`QuoteJSONString`). -/
def quoteChar (c : Char) : List Char :=
  if c = '"' then ['\\', '"']
  else if c = '\\' then ['\\', '\\']
  else if c = Char.ofNat 8 then ['\\', 'b']
  else if c = Char.ofNat 12 then ['\\', 'f']
  else if c = '\n' then ['\\', 'n']
  else if c = '\r' then ['\\', 'r']
  else if c = '\t' then ['\\', 't']
  else if c.toNat < 32 then ['\\', 'u', '0', '0', hexDigit (c.toNat / 16), hexDigit (c.toNat % 16)]
  else [c]

/-- The content unit the scanner collects for the text of one character. -/
def quoteItem (c : Char) : StrItem :=
  if needsUEscape c then .esc c.toNat else .chr c

/-- The text of the characters of a string, between the quotes. -/
def quoteChars : List Char → List Char
  | [] => []
  | c :: cs => quoteChar c ++ quoteChars cs

/-- The text `JSON.stringify` writes for a string. -/
def quoteJSONString (s : String) : List Char :=
  '"' :: quoteChars s.data ++ ['"']

/-- The texts of the elements after the first, each after a comma. -/
def commaTail : List (List Char) → List Char
  | [] => []
  | y :: ys => ',' :: y ++ commaTail ys

/-- The texts of the elements of an array, separated by commas. -/
def joinComma : List (List Char) → List Char
  | [] => []
  | x :: xs => x ++ commaTail xs

/-- The text of an array, from the texts of its elements. -/
def arrayText (elems : List (List Char)) : List Char :=
  '[' :: joinComma elems ++ [']']

/-- The opening of an object with its first key. -/
def objOpen (key : String) : List Char := '{' :: '"' :: key.data ++ ['"', ':']

/-- The comma and the key of a further member. -/
def objNext (key : String) : List Char := ',' :: '"' :: key.data ++ ['"', ':']

/-- The text `JSON.stringify` writes for a node. -/
def stringifyNode (n : ViolationNode) : List Char :=
  objOpen "impact" ++ quoteJSONString n.impact ++
  objNext "html" ++ quoteJSONString n.html ++
  objNext "target" ++ arrayText (n.target.map quoteJSONString) ++
  objNext "failureSummary" ++ quoteJSONString n.failureSummary ++ ['}']

/-- The text `JSON.stringify` writes for a violation. -/
def stringifyViolation (v : Violation) : List Char :=
  objOpen "id" ++ quoteJSONString v.id ++
  objNext "impact" ++ quoteJSONString v.impact ++
  objNext "tags" ++ arrayText (v.tags.map quoteJSONString) ++
  objNext "description" ++ quoteJSONString v.description ++
  objNext "help" ++ quoteJSONString v.help ++
  objNext "helpUrl" ++ quoteJSONString v.helpUrl ++
  objNext "nodes" ++ arrayText (v.nodes.map stringifyNode) ++ ['}']

/-- The text `JSON.stringify(results.violations)` writes for a list of violations. -/
def jsonStringify (vs : List Violation) : String :=
  String.mk (arrayText (vs.map stringifyViolation))

/-- The value tree of a node. -/
def ViolationNode.toJson (n : ViolationNode) : Json :=
  .obj [("impact", .str n.impact), ("html", .str n.html),
        ("target", .arr (n.target.map Json.str)), ("failureSummary", .str n.failureSummary)]

/-- The value tree of a violation. -/
def Violation.toJson (v : Violation) : Json :=
  .obj [("id", .str v.id), ("impact", .str v.impact), ("tags", .arr (v.tags.map Json.str)),
        ("description", .str v.description), ("help", .str v.help),
        ("helpUrl", .str v.helpUrl), ("nodes", .arr (v.nodes.map ViolationNode.toJson))]

/-- The Go value with the same fields as a node of the page. -/
def ViolationNode.toNode (n : ViolationNode) : Node :=
  ⟨n.impact, n.html, .mk n.target [], n.failureSummary⟩

/-- The Go value with the same fields as a violation of the page. -/
def Violation.toAxeResult (v : Violation) : AxeResult :=
  ⟨v.id, v.impact, .mk v.tags [], v.description, v.help, v.helpUrl,
   .mk (v.nodes.map ViolationNode.toNode) []⟩

/-- The violation of the specification's round-trip example. -/
def exampleViolation : Violation :=
  ⟨"color-contrast", "serious", ["wcag2aa"], "d", "h", "u",
   [⟨"serious", "<div/>", ["#x"], "fix it"⟩]⟩

/-- The serialized array of the specification's round-trip example. -/
def exampleText : String :=
  "[\x7b\"id\":\"color-contrast\",\"impact\":\"serious\",\"tags\":[\"wcag2aa\"],\"description\":\"d\",\"help\":\"h\",\"helpUrl\":\"u\",\"nodes\":[\x7b\"impact\":\"serious\",\"html\":\"<div/>\",\"target\":[\"#x\"],\"failureSummary\":\"fix it\"\x7d]\x7d]"

/-! ## Kinds of scanner states -/

/-- The steps at which a value may begin: after a colon or a comma, or just after `[`. -/
def Step.beginsValue : Step → Bool
  | .beginValue => true
  | .beginValueOrEmpty => true
  | _ => false

/-- Whether a value is an array or an object. -/
def Json.isCompound : Json → Bool
  | .arr _ => true
  | .obj _ => true
  | _ => false

/-- Scanner states on the way through a text whose top-level value is an array or an
object: before the value, inside it, or after it. -/
def Scanner.inCompound (s : Scanner) : Bool :=
  !s.parseState.isEmpty ||
    (match s.step with
     | .beginValue => true
     | .endTop v => v.isCompound
     | _ => false)

/-- Scanner states on the way through a text whose top-level value is a string, a number
or a literal: inside the value or after it. -/
def Scanner.inScalar (s : Scanner) : Bool :=
  s.parseState.isEmpty &&
    (match s.step with
     | .inString _ => true
     | .inStringEsc _ => true
     | .inStringEscU _ _ _ => true
     | .inNumber _ _ => true
     | .inLiteral _ v => !v.isCompound
     | .endValue v => !v.isCompound
     | .endTop v => !v.isCompound
     | _ => false)

/-! ## Example environments -/

/-- A call that succeeds after one millisecond. -/
def Call.quick {α : Type} (a : α) : Call α := ⟨millisecond, .ok a⟩

/-- An environment in which every call succeeds after one millisecond, the engine is
loaded from check `loadedAt` on, the analysis is complete from check `completeAt` on, and
the result holder contains `res`. -/
def Env.sample (res : String) (loadedAt completeAt : Nat) : Env where
  start := 0
  startBrowser := Call.quick ()
  navigate := fun _ => Call.quick ()
  waitVisible := Call.quick ()
  injectAxe := Call.quick ()
  axeLoaded := fun i => Call.quick (decide (loadedAt ≤ i))
  sleepLoad := fun _ => 0
  startAnalysis := Call.quick ()
  axeComplete := fun i => Call.quick (decide (completeAt ≤ i))
  sleepPoll := fun _ => 0
  axeResults := Call.quick res
  timestamp := "2024-01-01T00:00:00Z"
  unmarshalErrorText := fun _ => "invalid input"

/-- An environment in which the engine never loads. -/
def Env.neverLoaded : Env :=
  { Env.sample "[]" 0 0 with axeLoaded := fun _ => Call.quick false }

/-- An environment in which the analysis never completes. -/
def Env.neverComplete : Env :=
  { Env.sample "[]" 0 0 with axeComplete := fun _ => Call.quick false }

/-- An environment in which the browser cannot be started, with the given error text. -/
def Env.failing (msg : String) : Env :=
  { Env.sample "[]" 0 0 with startBrowser := ⟨millisecond, .error msg⟩ }

/-! ## Verified properties -/

/-! ### The two poll loops -/

/-- With one iteration of budget per 200 ms left before the deadline, and one more, the
engine-load loop returns. -/
theorem waitForAxeLoop_isSome (env : Env) (timeout : Nat) (vj : String) :
    ∀ (fuel i now : Nat), timeout ≤ now + fuel * (200 * millisecond) →
      ∃ r, waitForAxeLoop env timeout vj (fuel + 1) i now = some r := by
  intro fuel
  induction fuel with
  | zero =>
    intro i now h
    have hn : ¬ now < timeout := by omega
    simp [waitForAxeLoop, hn]
  | succ k ih =>
    intro i now h
    rw [waitForAxeLoop]
    by_cases hn : now < timeout
    · simp only [hn, if_true]
      cases hres : (env.axeLoaded i).result with
      | error e => simp
      | ok b =>
        cases b with
        | true => simp
        | false =>
          obtain ⟨r, hr⟩ := ih (i + 1)
            (now + (env.axeLoaded i).dur + (200 * millisecond + env.sleepLoad i))
            (by rw [Nat.succ_mul] at h; omega)
          simp [hr]
    · simp [hn]

/-- With one iteration of budget per 500 ms left before the deadline, and one more, the
completion loop returns. -/
theorem pollCompleteLoop_isSome (env : Env) (timeout : Nat) (vj : String) :
    ∀ (fuel i now : Nat), timeout ≤ now + fuel * (500 * millisecond) →
      ∃ r, pollCompleteLoop env timeout vj (fuel + 1) i now = some r := by
  intro fuel
  induction fuel with
  | zero =>
    intro i now h
    have hn : ¬ now < timeout := by omega
    simp [pollCompleteLoop, hn]
  | succ k ih =>
    intro i now h
    rw [pollCompleteLoop]
    by_cases hn : now < timeout
    · simp only [hn, if_true]
      cases hres : (env.axeComplete i).result with
      | error e => simp
      | ok b =>
        cases b with
        | true =>
          cases hg : env.axeResults.result <;> simp
        | false =>
          obtain ⟨r, hr⟩ := ih (i + 1)
            (now + (env.axeComplete i).dur + (500 * millisecond + env.sleepPoll i))
            (by rw [Nat.succ_mul] at h; omega)
          simp [hr]
    · simp [hn]

/-- The engine-load loop when the check always answers `false`: it ends with the timeout
error, at or after the deadline, every action it performed started before the deadline
and not before the loop did, and it only evaluated the engine-loaded expression and
slept. -/
theorem waitForAxeLoop_never (env : Env) (timeout : Nat) (vj : String)
    (hno : ∀ i, (env.axeLoaded i).result = .ok false) :
    ∀ (fuel i now : Nat), timeout ≤ now + fuel * (200 * millisecond) →
      ∃ r, waitForAxeLoop env timeout vj (fuel + 1) i now = some r ∧
        r.err = some "timeout waiting for axe-core to load" ∧
        r.violationsJSON = vj ∧ timeout ≤ r.now ∧ now ≤ r.now ∧
        ∀ ev ∈ r.trace, now ≤ ev.time ∧
          ((ev.action = .evaluate axeLoadedExpr ∧ ev.time < timeout) ∨
            ev.action = .sleep (200 * millisecond)) := by
  intro fuel
  induction fuel with
  | zero =>
    intro i now h
    have hn : ¬ now < timeout := by omega
    refine ⟨⟨some "timeout waiting for axe-core to load", now, [], vj⟩, ?_⟩
    simp [waitForAxeLoop, hn]
    omega
  | succ k ih =>
    intro i now h
    rw [waitForAxeLoop]
    by_cases hn : now < timeout
    · simp only [hn, if_true, hno i]
      obtain ⟨r, hr, he, hv, ht, hnow, htr⟩ := ih (i + 1)
        (now + (env.axeLoaded i).dur + (200 * millisecond + env.sleepLoad i))
        (by rw [Nat.succ_mul] at h; omega)
      rw [hr]
      refine ⟨_, rfl, he, hv, ht, by show now ≤ r.now; omega, ?_⟩
      intro ev hev
      simp only [List.mem_cons] at hev
      rcases hev with rfl | rfl | hev
      · exact ⟨le_refl _, Or.inl ⟨rfl, hn⟩⟩
      · exact ⟨by simp, Or.inr rfl⟩
      · obtain ⟨h1, h2⟩ := htr ev hev
        exact ⟨by omega, h2⟩
    · refine ⟨⟨some "timeout waiting for axe-core to load", now, [], vj⟩, ?_⟩
      simp [hn]
      omega

/-- The completion loop when the flag always reads `false`: the mirror image of
`waitForAxeLoop_never`; in particular the result holder is not evaluated. -/
theorem pollCompleteLoop_never (env : Env) (timeout : Nat) (vj : String)
    (hno : ∀ i, (env.axeComplete i).result = .ok false) :
    ∀ (fuel i now : Nat), timeout ≤ now + fuel * (500 * millisecond) →
      ∃ r, pollCompleteLoop env timeout vj (fuel + 1) i now = some r ∧
        r.err = some "timeout waiting for axe analysis to complete" ∧
        r.violationsJSON = vj ∧ timeout ≤ r.now ∧ now ≤ r.now ∧
        ∀ ev ∈ r.trace, now ≤ ev.time ∧
          ((ev.action = .evaluate axeCompleteExpr ∧ ev.time < timeout) ∨
            ev.action = .sleep (500 * millisecond)) := by
  intro fuel
  induction fuel with
  | zero =>
    intro i now h
    have hn : ¬ now < timeout := by omega
    refine ⟨⟨some "timeout waiting for axe analysis to complete", now, [], vj⟩, ?_⟩
    simp [pollCompleteLoop, hn]
    omega
  | succ k ih =>
    intro i now h
    rw [pollCompleteLoop]
    by_cases hn : now < timeout
    · simp only [hn, if_true, hno i]
      obtain ⟨r, hr, he, hv, ht, hnow, htr⟩ := ih (i + 1)
        (now + (env.axeComplete i).dur + (500 * millisecond + env.sleepPoll i))
        (by rw [Nat.succ_mul] at h; omega)
      rw [hr]
      refine ⟨_, rfl, he, hv, ht, by show now ≤ r.now; omega, ?_⟩
      intro ev hev
      simp only [List.mem_cons] at hev
      rcases hev with rfl | rfl | hev
      · exact ⟨le_refl _, Or.inl ⟨rfl, hn⟩⟩
      · exact ⟨by simp, Or.inr rfl⟩
      · obtain ⟨h1, h2⟩ := htr ev hev
        exact ⟨by omega, h2⟩
    · refine ⟨⟨some "timeout waiting for axe analysis to complete", now, [], vj⟩, ?_⟩
      simp [hn]
      omega

/-- The engine-load wait always returns: its budget of 76 iterations is never used up. -/
theorem waitForAxe_isSome (env : Env) (now : Nat) (vj : String) :
    ∃ r, waitForAxe env now vj = some r :=
  waitForAxeLoop_isSome env _ vj 75 0 now (by simp [second, millisecond])

/-- The completion wait always returns: its budget of 61 iterations is never used up. -/
theorem pollComplete_isSome (env : Env) (now : Nat) (vj : String) :
    ∃ r, pollComplete env now vj = some r :=
  pollCompleteLoop_isSome env _ vj 60 0 now (by simp [second, millisecond])

/-! ### The pipeline -/

/-- Running tasks one list after another. -/
theorem runTasks_append (a b : List Task) :
    ∀ (now : Nat) (vj : String),
      runTasks (a ++ b) now vj =
        match runTasks a now vj with
        | none => none
        | some r =>
          match r.err with
          | some _ => some r
          | none =>
            match runTasks b r.now r.violationsJSON with
            | none => none
            | some r2 => some { r2 with trace := r.trace ++ r2.trace } := by
  induction a with
  | nil =>
    intro now vj
    simp only [List.nil_append, runTasks]
    cases runTasks b now vj <;> simp
  | cons t ts ih =>
    intro now vj
    simp only [List.cons_append, runTasks]
    cases ht : t now vj with
    | none => simp
    | some r =>
      simp only
      cases he : r.err with
      | some e => simp [he]
      | none =>
        simp only
        rw [show ts.append b = ts ++ b from rfl, ih]
        cases hts : runTasks ts r.now r.violationsJSON with
        | none => simp
        | some r1 =>
          simp only
          cases he1 : r1.err with
          | some e1 => simp [he1]
          | none =>
            simp only [he1]
            cases runTasks b r1.now r1.violationsJSON <;> simp

/-- A list of tasks that each return returns. -/
theorem runTasks_isSome (ts : List Task)
    (h : ∀ t ∈ ts, ∀ now vj, ∃ r, t now vj = some r) :
    ∀ (now : Nat) (vj : String), ∃ r, runTasks ts now vj = some r := by
  induction ts with
  | nil => intro now vj; exact ⟨_, rfl⟩
  | cons t ts ih =>
    intro now vj
    obtain ⟨r, hr⟩ := h t (List.mem_cons_self _ _) now vj
    simp only [runTasks, hr]
    cases he : r.err with
    | some e => exact ⟨_, rfl⟩
    | none =>
      obtain ⟨r2, hr2⟩ := ih (fun t ht => h t (List.mem_cons_of_mem _ ht)) r.now r.violationsJSON
      simp [hr2]

/-- A property of events that holds in the trace of every task holds in the trace of the
list. -/
theorem runTasks_trace (P : Event → Prop) (ts : List Task)
    (h : ∀ t ∈ ts, ∀ now vj r, t now vj = some r → ∀ ev ∈ r.trace, P ev) :
    ∀ (now : Nat) (vj : String) (r : TaskResult), runTasks ts now vj = some r →
      ∀ ev ∈ r.trace, P ev := by
  induction ts with
  | nil =>
    intro now vj r hr ev hev
    simp only [runTasks, Option.some.injEq] at hr
    subst hr
    simp at hev
  | cons t ts ih =>
    intro now vj r hr ev hev
    simp only [runTasks] at hr
    cases ht : t now vj with
    | none => simp [ht] at hr
    | some r1 =>
      simp only [ht] at hr
      have h1 := h t (List.mem_cons_self _ _) now vj r1 ht
      cases he : r1.err with
      | some e =>
        simp only [he, Option.some.injEq] at hr
        subst hr
        exact h1 ev hev
      | none =>
        simp only [he] at hr
        cases hts : runTasks ts r1.now r1.violationsJSON with
        | none => simp [hts] at hr
        | some r2 =>
          simp only [hts, Option.some.injEq] at hr
          subst hr
          simp only [List.mem_append] at hev
          rcases hev with hev | hev
          · exact h1 ev hev
          · exact ih (fun t ht => h t (List.mem_cons_of_mem _ ht)) _ _ r2 hts ev hev

/-- The engine-load loop only evaluates the engine-loaded expression and sleeps. -/
theorem waitForAxeLoop_trace (env : Env) (timeout : Nat) (vj : String) :
    ∀ (fuel i now : Nat) (r : TaskResult), waitForAxeLoop env timeout vj fuel i now = some r →
      ∀ ev ∈ r.trace, ev.action = .evaluate axeLoadedExpr ∨
        ev.action = .sleep (200 * millisecond) := by
  intro fuel
  induction fuel with
  | zero => intro i now r h; simp [waitForAxeLoop] at h
  | succ k ih =>
    intro i now r h ev hev
    rw [waitForAxeLoop] at h
    by_cases hn : now < timeout
    · simp only [hn, if_true] at h
      cases hres : (env.axeLoaded i).result with
      | error e =>
        simp only [hres, Option.some.injEq] at h
        subst h
        simp at hev
        simp [hev]
      | ok b =>
        cases b with
        | true =>
          simp only [hres, Option.some.injEq] at h
          subst h
          simp at hev
          simp [hev]
        | false =>
          simp only [hres] at h
          cases hrec : waitForAxeLoop env timeout vj k (i + 1)
              (now + (env.axeLoaded i).dur + (200 * millisecond + env.sleepLoad i)) with
          | none => simp [hrec] at h
          | some r1 =>
            simp only [hrec, Option.some.injEq] at h
            subst h
            simp only [List.mem_cons] at hev
            rcases hev with rfl | rfl | hev
            · exact Or.inl rfl
            · exact Or.inr rfl
            · exact ih _ _ r1 hrec ev hev
    · simp only [hn, if_false, Option.some.injEq] at h
      subst h
      simp at hev

/-- The completion loop only evaluates the completion flag and the result holder, and
sleeps. -/
theorem pollCompleteLoop_trace (env : Env) (timeout : Nat) (vj : String) :
    ∀ (fuel i now : Nat) (r : TaskResult),
      pollCompleteLoop env timeout vj fuel i now = some r →
      ∀ ev ∈ r.trace, ev.action = .evaluate axeCompleteExpr ∨
        ev.action = .evaluate axeResultsExpr ∨ ev.action = .sleep (500 * millisecond) := by
  intro fuel
  induction fuel with
  | zero => intro i now r h; simp [pollCompleteLoop] at h
  | succ k ih =>
    intro i now r h ev hev
    rw [pollCompleteLoop] at h
    by_cases hn : now < timeout
    · simp only [hn, if_true] at h
      cases hres : (env.axeComplete i).result with
      | error e =>
        simp only [hres, Option.some.injEq] at h
        subst h
        simp at hev
        simp [hev]
      | ok b =>
        cases b with
        | true =>
          simp only [hres] at h
          cases hg : env.axeResults.result with
          | error e =>
            simp only [hg, Option.some.injEq] at h
            subst h
            simp at hev
            rcases hev with rfl | rfl <;> simp
          | ok v =>
            simp only [hg, Option.some.injEq] at h
            subst h
            simp at hev
            rcases hev with rfl | rfl <;> simp
        | false =>
          simp only [hres] at h
          cases hrec : pollCompleteLoop env timeout vj k (i + 1)
              (now + (env.axeComplete i).dur + (500 * millisecond + env.sleepPoll i)) with
          | none => simp [hrec] at h
          | some r1 =>
            simp only [hrec, Option.some.injEq] at h
            subst h
            simp only [List.mem_cons] at hev
            rcases hev with rfl | rfl | hev
            · exact Or.inl rfl
            · exact Or.inr (Or.inr rfl)
            · exact ih _ _ r1 hrec ev hev
    · simp only [hn, if_false, Option.some.injEq] at h
      subst h
      simp at hev

/-- The pipeline always returns. -/
theorem chromedpRun_isSome (env : Env) (url : String) (now : Nat) (vj : String) :
    ∃ r, chromedpRun env url now vj = some r := by
  apply runTasks_isSome
  intro t ht now vj
  simp only [tasksBeforePoll, List.cons_append, List.nil_append, List.mem_cons,
    List.mem_singleton, List.not_mem_nil, or_false] at ht
  rcases ht with rfl | rfl | rfl | rfl | rfl | rfl | rfl
  · exact ⟨_, rfl⟩
  · exact ⟨_, rfl⟩
  · exact ⟨_, rfl⟩
  · exact ⟨_, rfl⟩
  · exact waitForAxe_isSome env now vj
  · exact ⟨_, rfl⟩
  · exact pollComplete_isSome env now vj

/-- The only navigation of the pipeline goes to the URL it was given. -/
theorem chromedpRun_navigate (env : Env) (url : String) (now : Nat) (vj : String)
    (r : TaskResult) (h : chromedpRun env url now vj = some r) :
    ∀ ev ∈ r.trace, ∀ u, ev.action = .navigate u → u = url := by
  refine runTasks_trace (fun ev => ∀ u, ev.action = .navigate u → u = url) _ ?_ now vj r h
  intro t ht now vj r hr ev hev u hu
  simp only [tasksBeforePoll, List.cons_append, List.nil_append, List.mem_cons,
    List.mem_singleton, List.not_mem_nil, or_false] at ht
  rcases ht with rfl | rfl | rfl | rfl | rfl | rfl | rfl
  · simp only [callTask, Option.some.injEq] at hr; subst hr; simp at hev; simp [hev] at hu
  · simp only [callTask, Option.some.injEq] at hr; subst hr; simp at hev
    simp [hev] at hu; exact hu.symm
  · simp only [callTask, Option.some.injEq] at hr; subst hr; simp at hev; simp [hev] at hu
  · simp only [callTask, Option.some.injEq] at hr; subst hr; simp at hev; simp [hev] at hu
  · rcases waitForAxeLoop_trace env _ _ _ _ _ r hr ev hev with h1 | h1 <;> simp [h1] at hu
  · simp only [callTask, Option.some.injEq] at hr; subst hr; simp at hev; simp [hev] at hu
  · rcases pollCompleteLoop_trace env _ _ _ _ _ r hr ev hev with h1 | h1 | h1 <;>
      simp [h1] at hu

/-! ### The handler -/

/-- The handler always returns. -/
theorem analyzeHandler_isSome (env : Env) (r : Request) :
    ∃ o, analyzeHandler env r = some o := by
  unfold analyzeHandler
  by_cases hm : r.method = "GET"
  · obtain ⟨run, hrun⟩ := chromedpRun_isSome env (targetURL r) env.start ""
    simp only [hm, ne_eq, not_true_eq_false, if_false, hrun]
    cases run.err with
    | some e => exact ⟨_, rfl⟩
    | none =>
      simp only
      cases Unmarshal (if run.violationsJSON = "" then "[]" else run.violationsJSON) .nil with
      | error e => exact ⟨_, rfl⟩
      | ok v => exact ⟨_, rfl⟩
  · simp [hm]

/-- The handler on a GET request, by the outcome of the pipeline and of the parse. -/
theorem analyzeHandler_get (env : Env) (r : Request) (hm : r.method = "GET")
    (run : TaskResult) (hrun : chromedpRun env (targetURL r) env.start "" = some run) :
    analyzeHandler env r =
      match run.err with
      | some e =>
        some ⟨httpError ("\x7b\"error\": \"Failed to analyze: " ++ e ++ "\"\x7d") 500,
              setupTrace env ++ run.trace⟩
      | none =>
        match Unmarshal (if run.violationsJSON = "" then "[]" else run.violationsJSON) .nil with
        | .error _ =>
          some ⟨httpError ("\x7b\"error\": \"Failed to parse results: " ++
                  env.unmarshalErrorText
                    (if run.violationsJSON = "" then "[]" else run.violationsJSON) ++
                  "\"\x7d") 500,
                setupTrace env ++ run.trace⟩
        | .ok violations =>
          some ⟨⟨200, .encoded ⟨targetURL r, env.timestamp, violations, violations.len⟩⟩,
                setupTrace env ++ run.trace⟩ := by
  unfold analyzeHandler
  simp only [hm, ne_eq, not_true_eq_false, if_false, hrun]

/-- The handler on a request that is not a GET. -/
theorem analyzeHandler_not_get (env : Env) (r : Request) (h : r.method ≠ "GET") :
    analyzeHandler env r = some ⟨⟨405, .text "Method not allowed\n"⟩, []⟩ := by
  unfold analyzeHandler
  simp [h, httpError]

/-- C3: a request whose method is not GET is answered with status 405, and the handler
returns without any external action: no browser session is created and no stage of the
pipeline is run. -/
theorem analyzeHandler_wrong_method (env : Env) (r : Request) (h : r.method ≠ "GET") :
    analyzeHandler env r = some ⟨⟨405, .text "Method not allowed\n"⟩, []⟩ :=
  analyzeHandler_not_get env r h

/-- C3, witness: a POST request. -/
theorem analyzeHandler_wrong_method_witness :
    (⟨"POST", [("url", "https://example.com")]⟩ : Request).method ≠ "GET" ∧
    analyzeHandler (Env.sample "[]" 0 0) ⟨"POST", [("url", "https://example.com")]⟩ =
      some ⟨⟨405, .text "Method not allowed\n"⟩, []⟩ :=
  ⟨by decide, analyzeHandler_wrong_method _ _ (by decide)⟩

/-- C1: on every request the handler returns, and whenever it answers with a success body
the `count` of the response map is the length of its `violations`; in the encoded object
the `count` member is the number of elements of the `violations` member. -/
theorem success_count_eq_len (env : Env) (r : Request) :
    ∃ o, analyzeHandler env r = some o ∧
      ∀ sr, o.response.body = .encoded sr →
        sr.count = sr.violations.len ∧
        ∃ v, (marshalResponse sr).field "violations" = some v ∧
          (marshalResponse sr).field "count" = some (.num (toString v.elems.length)) := by
  have key : ∀ sr : ScanResponse, sr.count = sr.violations.len →
      sr.count = sr.violations.len ∧
        ∃ v, (marshalResponse sr).field "violations" = some v ∧
          (marshalResponse sr).field "count" = some (.num (toString v.elems.length)) := by
    intro sr h
    refine ⟨h, marshalViolations sr.violations, by simp [marshalResponse, Json.field, List.lookup], ?_⟩
    have hl : (marshalViolations sr.violations).elems.length = sr.count := by
      rw [h]
      cases sr.violations <;> simp [marshalViolations, Json.elems, GoSlice.len]
    simp [marshalResponse, Json.field, List.lookup, hl]
  by_cases hm : r.method = "GET"
  · obtain ⟨run, hrun⟩ := chromedpRun_isSome env (targetURL r) env.start ""
    rw [analyzeHandler_get env r hm run hrun]
    cases run.err with
    | some e => exact ⟨_, rfl, by intro sr h; simp [httpError] at h⟩
    | none =>
      simp only
      cases Unmarshal (if run.violationsJSON = "" then "[]" else run.violationsJSON) .nil with
      | error e => exact ⟨_, rfl, by intro sr h; simp [httpError] at h⟩
      | ok v =>
        refine ⟨_, rfl, ?_⟩
        intro sr h
        simp only [Body.encoded.injEq] at h
        subst h
        exact key _ rfl
  · rw [analyzeHandler_not_get env r hm]
    exact ⟨_, rfl, by intro sr h; simp at h⟩

/-- The first task of a list, and then the rest. -/
theorem runTasks_cons (t : Task) (ts : List Task) (now : Nat) (vj : String) (r : TaskResult)
    (h : runTasks (t :: ts) now vj = some r) :
    ∃ r1, t now vj = some r1 ∧
      ((r1.err ≠ none ∧ r = r1) ∨
        (r1.err = none ∧ ∃ r2, runTasks ts r1.now r1.violationsJSON = some r2 ∧
          r = { r2 with trace := r1.trace ++ r2.trace })) := by
  simp only [runTasks] at h
  cases ht : t now vj with
  | none => simp [ht] at h
  | some r1 =>
    simp only [ht] at h
    refine ⟨r1, rfl, ?_⟩
    cases he : r1.err with
    | some e =>
      simp only [he, Option.some.injEq] at h
      exact Or.inl ⟨by simp, h.symm⟩
    | none =>
      simp only [he] at h
      cases hts : runTasks ts r1.now r1.violationsJSON with
      | none => simp [hts] at h
      | some r2 =>
        simp only [hts, Option.some.injEq] at h
        exact Or.inr ⟨rfl, r2, rfl, h.symm⟩

/-- C7: a GET request without a `url` parameter, or with an empty one, is not rejected:
the handler runs the pipeline on the placeholder "Type you URL"; with a non-empty
parameter it runs it on that value unchanged.  The target is the same for two requests
with the same `url` parameter.  The answer has status 200 or 500 (never a 4xx), the
handler starts the browser, the target is the only URL it navigates to, it does navigate
to it once the browser has started, and a success body echoes it. -/
theorem target_url_placeholder (env : Env) (r : Request) (hm : r.method = "GET") :
    ((r.query.lookup "url" = none ∨ r.query.lookup "url" = some "") →
        targetURL r = "Type you URL") ∧
    (∀ u, r.query.lookup "url" = some u → u ≠ "" → targetURL r = u) ∧
    (∀ r2 : Request, r2.query.lookup "url" = r.query.lookup "url" →
        targetURL r2 = targetURL r) ∧
    ∃ o, analyzeHandler env r = some o ∧
      (o.response.status = 200 ∨ o.response.status = 500) ∧
      ⟨env.start, .startBrowser⟩ ∈ o.trace ∧
      (∀ ev ∈ o.trace, ∀ u, ev.action = .navigate u → u = targetURL r) ∧
      (env.startBrowser.result = .ok () →
        ⟨env.start + env.startBrowser.dur, .navigate (targetURL r)⟩ ∈ o.trace) ∧
      (∀ sr, o.response.body = .encoded sr → sr.url = targetURL r) := by
  refine ⟨?_, ?_, ?_, ?_⟩
  · rintro (h | h) <;> simp [targetURL, Request.queryGet, h]
  · intro u h hu
    simp [targetURL, Request.queryGet, h, hu]
  · intro r2 h
    simp [targetURL, Request.queryGet, h]
  · obtain ⟨run, hrun⟩ := chromedpRun_isSome env (targetURL r) env.start ""
    have hnav := chromedpRun_navigate env (targetURL r) env.start "" run hrun
    have hsetup : ∀ ev ∈ setupTrace env, ∀ u, ev.action = .navigate u → u = targetURL r := by
      intro ev hev u hu
      simp [setupTrace] at hev
      rcases hev with rfl | rfl | rfl <;> simp at hu
    have hall : ∀ ev ∈ setupTrace env ++ run.trace, ∀ u, ev.action = .navigate u →
        u = targetURL r := by
      intro ev hev
      rcases List.mem_append.1 hev with h | h
      · exact hsetup ev h
      · exact hnav ev h
    -- the first two tasks
    have hfirst : ⟨env.start, .startBrowser⟩ ∈ run.trace ∧
        (env.startBrowser.result = .ok () →
          ⟨env.start + env.startBrowser.dur, .navigate (targetURL r)⟩ ∈ run.trace) := by
      have h2 := hrun
      simp only [chromedpRun, tasksBeforePoll, List.cons_append] at h2
      obtain ⟨r1, hr1, hcase⟩ := runTasks_cons _ _ _ _ _ h2
      simp only [callTask, Option.some.injEq] at hr1
      subst hr1
      rcases hcase with ⟨he, rfl⟩ | ⟨he, r2, hr2, rfl⟩
      · refine ⟨by simp, ?_⟩
        intro hok
        simp [hok] at he
      · obtain ⟨r3, hr3, hcase3⟩ := runTasks_cons _ _ _ _ _ hr2
        simp only [callTask, Option.some.injEq] at hr3
        subst hr3
        rcases hcase3 with ⟨-, rfl⟩ | ⟨-, r4, -, rfl⟩ <;> simp
    rw [analyzeHandler_get env r hm run hrun]
    cases run.err with
    | some e =>
      refine ⟨_, rfl, Or.inr rfl, ?_, hall, ?_, by intro sr h; simp [httpError] at h⟩
      · exact List.mem_append_right _ hfirst.1
      · intro h; exact List.mem_append_right _ (hfirst.2 h)
    | none =>
      simp only
      cases Unmarshal (if run.violationsJSON = "" then "[]" else run.violationsJSON) .nil with
      | error e =>
        refine ⟨_, rfl, Or.inr rfl, ?_, hall, ?_, by intro sr h; simp [httpError] at h⟩
        · exact List.mem_append_right _ hfirst.1
        · intro h; exact List.mem_append_right _ (hfirst.2 h)
      | ok v =>
        refine ⟨_, rfl, Or.inl rfl, ?_, hall, ?_, ?_⟩
        · exact List.mem_append_right _ hfirst.1
        · intro h; exact List.mem_append_right _ (hfirst.2 h)
        · intro sr h
          simp only [Body.encoded.injEq] at h
          subst h
          rfl

/-- C7, witness: a GET request without query; the handler navigates to the placeholder. -/
theorem target_url_placeholder_witness :
    (⟨"GET", []⟩ : Request).method = "GET" ∧
    targetURL ⟨"GET", []⟩ = "Type you URL" ∧
    ∃ o, analyzeHandler (Env.sample "[]" 1 1) ⟨"GET", []⟩ = some o ∧
      ⟨1000000, .navigate "Type you URL"⟩ ∈ o.trace := by
  obtain ⟨h1, -, -, o, ho, -, -, -, h5, -⟩ :=
    target_url_placeholder (Env.sample "[]" 1 1) ⟨"GET", []⟩ rfl
  exact ⟨rfl, h1 (Or.inl rfl), o, ho, h5 rfl⟩

/-- The pipeline when the tasks before the completion poll succeed. -/
theorem chromedpRun_of_before (env : Env) (url : String) (now : Nat) (vj : String)
    (r0 : TaskResult) (hpre : runTasks (tasksBeforePoll env url) now vj = some r0)
    (hok : r0.err = none) :
    chromedpRun env url now vj =
      match pollComplete env r0.now r0.violationsJSON with
      | none => none
      | some res => some { res with trace := r0.trace ++ res.trace } := by
  unfold chromedpRun
  rw [runTasks_append, hpre]
  simp only [hok, runTasks]
  cases hp : pollComplete env r0.now r0.violationsJSON with
  | none => rfl
  | some res =>
    simp only
    cases he : res.err with
    | some e => simp [he]
    | none => simp [he]

/-- The evaluated scripts and expressions are pairwise different from the two polled
ones. -/
theorem scripts_distinct :
    injectScript ≠ axeCompleteExpr ∧ injectScript ≠ axeResultsExpr ∧
    runScript ≠ axeCompleteExpr ∧ runScript ≠ axeResultsExpr ∧
    axeLoadedExpr ≠ axeCompleteExpr ∧ axeLoadedExpr ≠ axeResultsExpr ∧
    axeCompleteExpr ≠ axeResultsExpr := by decide

/-- The tasks before the completion poll never evaluate the completion flag or the result
holder. -/
theorem tasksBeforePoll_trace (env : Env) (url : String) (now : Nat) (vj : String)
    (r0 : TaskResult) (hpre : runTasks (tasksBeforePoll env url) now vj = some r0) :
    ∀ ev ∈ r0.trace, ev.action ≠ .evaluate axeCompleteExpr ∧
      ev.action ≠ .evaluate axeResultsExpr := by
  refine runTasks_trace (fun ev => ev.action ≠ .evaluate axeCompleteExpr ∧
      ev.action ≠ .evaluate axeResultsExpr) _ ?_ now vj r0 hpre
  intro t ht now vj r hr ev hev
  simp only [tasksBeforePoll, List.mem_cons, List.mem_singleton, List.not_mem_nil,
    or_false] at ht
  rcases ht with rfl | rfl | rfl | rfl | rfl | rfl
  · simp only [callTask, Option.some.injEq] at hr; subst hr; simp at hev; simp [hev]
  · simp only [callTask, Option.some.injEq] at hr; subst hr; simp at hev; simp [hev]
  · simp only [callTask, Option.some.injEq] at hr; subst hr; simp at hev; simp [hev]
  · simp only [callTask, Option.some.injEq] at hr; subst hr; simp at hev
    rw [hev]; simp [scripts_distinct.1, scripts_distinct.2.1]
  · rcases waitForAxeLoop_trace env _ _ _ _ _ r hr ev hev with h1 | h1 <;> rw [h1]
    · simp [scripts_distinct.2.2.2.2.1, scripts_distinct.2.2.2.2.2.1]
    · exact ⟨by simp, by simp⟩
  · simp only [callTask, Option.some.injEq] at hr; subst hr; simp at hev
    rw [hev]; simp [scripts_distinct.2.2.1, scripts_distinct.2.2.2.1]

/-- The completion poll when the flag never reads `true`. -/
theorem pollComplete_never (env : Env) (now : Nat) (vj : String)
    (hno : ∀ i, (env.axeComplete i).result = .ok false) :
    ∃ res, pollComplete env now vj = some res ∧
      res.err = some "timeout waiting for axe analysis to complete" ∧
      now + 30 * second ≤ res.now ∧
      (∀ ev ∈ res.trace, ev.action = .evaluate axeCompleteExpr →
        now ≤ ev.time ∧ ev.time < now + 30 * second) ∧
      (∀ ev ∈ res.trace, ev.action ≠ .evaluate axeResultsExpr) := by
  obtain ⟨res, hres, herr, -, hend, -, htr⟩ :=
    pollCompleteLoop_never env (now + 30 * second) vj hno 60 0 now
      (by simp [second, millisecond])
  refine ⟨res, hres, herr, hend, ?_, ?_⟩
  · intro ev hev ha
    obtain ⟨h1, h2⟩ := htr ev hev
    rcases h2 with ⟨-, h3⟩ | h3
    · exact ⟨h1, h3⟩
    · rw [ha] at h3; simp at h3
  · intro ev hev
    obtain ⟨-, h2⟩ := htr ev hev
    rcases h2 with ⟨h3, -⟩ | h3 <;> rw [h3]
    · simp [scripts_distinct.2.2.2.2.2.2]
    · simp

/-- C9: when the completion flag never reads `true` and no evaluation fails, the
completion wait, whenever it starts, ends with the error "timeout waiting for axe analysis
to complete", no earlier than 30 s after its own start, having started every check of the
flag within those 30 s and never having read the result holder.  When the tasks before it
succeeded, ending at `r0.now` (whatever the engine-load wait took), the handler answers
status 500 with that error, and its whole trace contains no read of the result holder. -/
theorem analysis_wait_times_out (env : Env)
    (hno : ∀ i, (env.axeComplete i).result = .ok false) :
    (∀ (now : Nat) (vj : String), ∃ res, pollComplete env now vj = some res ∧
      res.err = some "timeout waiting for axe analysis to complete" ∧
      now + 30 * second ≤ res.now ∧
      (∀ ev ∈ res.trace, ev.action = .evaluate axeCompleteExpr →
        now ≤ ev.time ∧ ev.time < now + 30 * second) ∧
      (∀ ev ∈ res.trace, ev.action ≠ .evaluate axeResultsExpr)) ∧
    (∀ (r : Request) (r0 : TaskResult), r.method = "GET" →
      runTasks (tasksBeforePoll env (targetURL r)) env.start "" = some r0 → r0.err = none →
      ∃ o, analyzeHandler env r = some o ∧
        o.response = ⟨500, .text
          "\x7b\"error\": \"Failed to analyze: timeout waiting for axe analysis to complete\"\x7d\n"⟩ ∧
        (∀ ev ∈ o.trace, ev.action = .evaluate axeCompleteExpr →
          r0.now ≤ ev.time ∧ ev.time < r0.now + 30 * second) ∧
        (∀ ev ∈ o.trace, ev.action ≠ .evaluate axeResultsExpr)) := by
  refine ⟨fun now vj => pollComplete_never env now vj hno, ?_⟩
  intro r r0 hm hpre hok
  obtain ⟨res, hres, herr, -, hchk, hnoread⟩ :=
    pollComplete_never env r0.now r0.violationsJSON hno
  have hrun := chromedpRun_of_before env (targetURL r) env.start "" r0 hpre hok
  rw [hres] at hrun
  have hpretr := tasksBeforePoll_trace env (targetURL r) env.start "" r0 hpre
  rw [analyzeHandler_get env r hm _ hrun]
  simp only [herr]
  refine ⟨_, rfl, ?_, ?_, ?_⟩
  · simp [httpError]
  · intro ev hev ha
    simp only [List.mem_append] at hev
    rcases hev with hev | hev | hev
    · simp [setupTrace] at hev
      rcases hev with rfl | rfl | rfl <;> simp at ha
    · exact absurd ha (hpretr ev hev).1
    · exact hchk ev hev ha
  · intro ev hev
    simp only [List.mem_append] at hev
    rcases hev with hev | hev | hev
    · simp [setupTrace] at hev
      rcases hev with rfl | rfl | rfl <;> simp
    · exact (hpretr ev hev).2
    · exact hnoread ev hev

/-- An optional result known through its error and its captured string. -/
theorem taskResult_of_map (f : Option TaskResult) (e : Option String) (v : String)
    (h : f.map (fun r => (r.err, r.violationsJSON)) = some (e, v)) :
    ∃ run, f = some run ∧ run.err = e ∧ run.violationsJSON = v := by
  cases f with
  | none => simp at h
  | some run =>
    simp only [Option.map_some', Option.some.injEq, Prod.mk.injEq] at h
    exact ⟨run, rfl, h.1, h.2⟩

/-- C9, witness: an environment whose completion flag always reads `false`. -/
theorem analysis_wait_times_out_witness :
    (∀ i, (Env.neverComplete.axeComplete i).result = .ok false) ∧
    ∃ o, analyzeHandler Env.neverComplete ⟨"GET", [("url", "https://example.com")]⟩ = some o ∧
      o.response = ⟨500, .text
        "\x7b\"error\": \"Failed to analyze: timeout waiting for axe analysis to complete\"\x7d\n"⟩ ∧
      (∀ ev ∈ o.trace, ev.action ≠ .evaluate axeResultsExpr) := by
  have hno : ∀ i, (Env.neverComplete.axeComplete i).result = .ok false := fun _ => rfl
  obtain ⟨r0, hr0, herr, -⟩ := taskResult_of_map
    (runTasks (tasksBeforePoll Env.neverComplete
      (targetURL ⟨"GET", [("url", "https://example.com")]⟩)) Env.neverComplete.start "")
    none "" (by decide)
  obtain ⟨o, ho, hresp, -, hread⟩ :=
    (analysis_wait_times_out Env.neverComplete hno).2
      ⟨"GET", [("url", "https://example.com")]⟩ r0 rfl hr0 herr
  exact ⟨hno, o, ho, hresp, hread⟩

/-- A task that returns without error, and then the rest of the list. -/
theorem runTasks_cons_ok (t : Task) (ts : List Task) (now : Nat) (vj : String)
    (r1 : TaskResult) (h1 : t now vj = some r1) (he : r1.err = none) :
    runTasks (t :: ts) now vj =
      match runTasks ts r1.now r1.violationsJSON with
      | none => none
      | some r2 => some { r2 with trace := r1.trace ++ r2.trace } := by
  simp only [runTasks, h1, he]

/-- A task that returns an error ends the list. -/
theorem runTasks_cons_err (t : Task) (ts : List Task) (now : Nat) (vj : String)
    (r1 : TaskResult) (e : String) (h1 : t now vj = some r1) (he : r1.err = some e) :
    runTasks (t :: ts) now vj = some r1 := by
  simp only [runTasks, h1, he]

/-- The engine-load wait when the check never answers `true`. -/
theorem waitForAxe_never (env : Env) (now : Nat) (vj : String)
    (hno : ∀ i, (env.axeLoaded i).result = .ok false) :
    ∃ res, waitForAxe env now vj = some res ∧
      res.err = some "timeout waiting for axe-core to load" ∧
      now + 15 * second ≤ res.now ∧
      (∀ ev ∈ res.trace, ev.action = .evaluate axeLoadedExpr ∨
        ev.action = .sleep (200 * millisecond)) ∧
      (∀ ev ∈ res.trace, ev.action = .evaluate axeLoadedExpr →
        now ≤ ev.time ∧ ev.time < now + 15 * second) := by
  obtain ⟨res, hres, herr, -, hend, -, htr⟩ :=
    waitForAxeLoop_never env (now + 15 * second) vj hno 75 0 now
      (by simp [second, millisecond])
  refine ⟨res, hres, herr, hend, ?_, ?_⟩
  · intro ev hev
    obtain ⟨-, h2⟩ := htr ev hev
    rcases h2 with ⟨h3, -⟩ | h3
    · exact Or.inl h3
    · exact Or.inr h3
  · intro ev hev ha
    obtain ⟨h1, h2⟩ := htr ev hev
    rcases h2 with ⟨-, h3⟩ | h3
    · exact ⟨h1, h3⟩
    · rw [ha] at h3; simp at h3

/-- C8: when the engine-loaded check never answers `true` and never fails (each iteration
advancing the clock by the time of the check plus a sleep of at least 200 ms), the
engine-load wait, whenever it starts, ends with the error "timeout waiting for axe-core to
load"; it only checks and sleeps, every check starts less than 15 s after the start of the
wait, and the wait ends no earlier than that deadline.  When the four tasks before it
succeed, the handler answers status 500 with that error. -/
theorem engine_wait_times_out (env : Env)
    (hno : ∀ i, (env.axeLoaded i).result = .ok false) :
    (∀ (now : Nat) (vj : String), ∃ res, waitForAxe env now vj = some res ∧
      res.err = some "timeout waiting for axe-core to load" ∧
      now + 15 * second ≤ res.now ∧
      (∀ ev ∈ res.trace, ev.action = .evaluate axeLoadedExpr ∨
        ev.action = .sleep (200 * millisecond)) ∧
      (∀ ev ∈ res.trace, ev.action = .evaluate axeLoadedExpr →
        now ≤ ev.time ∧ ev.time < now + 15 * second)) ∧
    (∀ r : Request, r.method = "GET" →
      env.startBrowser.result = .ok () → (env.navigate (targetURL r)).result = .ok () →
      env.waitVisible.result = .ok () → env.injectAxe.result = .ok () →
      ∃ o, analyzeHandler env r = some o ∧
        o.response = ⟨500, .text
          "\x7b\"error\": \"Failed to analyze: timeout waiting for axe-core to load\"\x7d\n"⟩) := by
  refine ⟨fun now vj => waitForAxe_never env now vj hno, ?_⟩
  intro r hm h1 h2 h3 h4
  obtain ⟨res, hres, herr, -⟩ := waitForAxe_never env
    (env.start + env.startBrowser.dur + (env.navigate (targetURL r)).dur +
      env.waitVisible.dur + env.injectAxe.dur) "" hno
  have hrun : ∃ run, chromedpRun env (targetURL r) env.start "" = some run ∧
      run.err = some "timeout waiting for axe-core to load" := by
    unfold chromedpRun tasksBeforePoll
    simp only [List.cons_append]
    rw [runTasks_cons_ok _ _ _ _ _ rfl (by simp [h1]),
      runTasks_cons_ok _ _ _ _ _ rfl (by simp [h2]),
      runTasks_cons_ok _ _ _ _ _ rfl (by simp [h3]),
      runTasks_cons_ok _ _ _ _ _ rfl (by simp [h4]),
      runTasks_cons_err _ _ _ _ _ _ hres herr]
    exact ⟨_, rfl, herr⟩
  obtain ⟨run, hrun, hrerr⟩ := hrun
  rw [analyzeHandler_get env r hm run hrun]
  simp only [hrerr]
  exact ⟨_, rfl, by simp [httpError]⟩

/-- C8, witness: an environment whose engine-loaded check always answers `false`. -/
theorem engine_wait_times_out_witness :
    (∀ i, (Env.neverLoaded.axeLoaded i).result = .ok false) ∧
    (∃ res, waitForAxe Env.neverLoaded 0 "" = some res ∧
      res.err = some "timeout waiting for axe-core to load") ∧
    ∃ o, analyzeHandler Env.neverLoaded ⟨"GET", [("url", "https://example.com")]⟩ = some o ∧
      o.response = ⟨500, .text
        "\x7b\"error\": \"Failed to analyze: timeout waiting for axe-core to load\"\x7d\n"⟩ := by
  have hno : ∀ i, (Env.neverLoaded.axeLoaded i).result = .ok false := fun _ => rfl
  obtain ⟨hloop, hhandler⟩ := engine_wait_times_out Env.neverLoaded hno
  obtain ⟨res, hres, herr, -⟩ := hloop 0 ""
  exact ⟨hno, ⟨res, hres, herr⟩,
    hhandler ⟨"GET", [("url", "https://example.com")]⟩ rfl rfl rfl rfl rfl⟩

/-- C10: when the pipeline succeeds and the extracted string is empty, the handler parses
the array literal `[]` in its place (the empty string itself is not valid JSON): the
parse succeeds, and the response is a success whose `violations` is the empty non-nil
slice, encoded as an empty array, with `count` 0. -/
theorem empty_result_gives_empty_array (env : Env) (r : Request) (hm : r.method = "GET")
    (run : TaskResult) (hrun : chromedpRun env (targetURL r) env.start "" = some run)
    (herr : run.err = none) (hempty : run.violationsJSON = "") :
    Unmarshal "" .nil = .error .syntaxError ∧
    Unmarshal "[]" .nil = .ok (.mk [] []) ∧
    analyzeHandler env r =
      some ⟨⟨200, .encoded ⟨targetURL r, env.timestamp, .mk [] [], 0⟩⟩,
            setupTrace env ++ run.trace⟩ ∧
    (marshalResponse ⟨targetURL r, env.timestamp, .mk [] [], 0⟩).field "violations" =
      some (.arr []) ∧
    (marshalResponse ⟨targetURL r, env.timestamp, .mk [] [], 0⟩).field "count" =
      some (.num "0") := by
  have h2 : Unmarshal "[]" .nil = .ok (.mk [] []) := by decide
  refine ⟨by decide, h2, ?_, ?_, ?_⟩
  · rw [analyzeHandler_get env r hm run hrun]
    simp only [herr, hempty, if_true, h2]
    rfl
  · simp [marshalResponse, Json.field, List.lookup, marshalViolations]
  · simp [marshalResponse, Json.field, List.lookup]
    rfl

/-- C10, witness: an environment whose result holder contains the empty string. -/
theorem empty_result_gives_empty_array_witness :
    ∃ run, chromedpRun (Env.sample "" 2 3) (targetURL ⟨"GET", [("url", "https://example.com")]⟩)
        (Env.sample "" 2 3).start "" = some run ∧
      run.err = none ∧ run.violationsJSON = "" ∧
      analyzeHandler (Env.sample "" 2 3) ⟨"GET", [("url", "https://example.com")]⟩ =
        some ⟨⟨200, .encoded ⟨"https://example.com", "2024-01-01T00:00:00Z", .mk [] [], 0⟩⟩,
              setupTrace (Env.sample "" 2 3) ++ run.trace⟩ := by
  obtain ⟨run, hrun, herr, hvj⟩ := taskResult_of_map
    (chromedpRun (Env.sample "" 2 3) (targetURL ⟨"GET", [("url", "https://example.com")]⟩)
      (Env.sample "" 2 3).start "") none "" (by decide)
  exact ⟨run, hrun, herr, hvj,
    (empty_result_gives_empty_array (Env.sample "" 2 3)
      ⟨"GET", [("url", "https://example.com")]⟩ rfl run hrun herr hvj).2.2.1⟩

/-! ### The scanner -/

/-- Scanning a text in two parts. -/
theorem scan_append (a b : List Char) :
    ∀ s : Scanner, scan s (a ++ b) =
      match scan s a with
      | none => none
      | some s1 => scan s1 b := by
  induction a with
  | nil => intro s; rfl
  | cons c cs ih =>
    intro s
    simp only [List.cons_append, scan]
    cases s.next c with
    | none => rfl
    | some s1 => exact ih s1

/-- Scanning a text in two parts, when the first part is accepted. -/
theorem scan_append_of (a b : List Char) (s s1 : Scanner) (h : scan s a = some s1) :
    scan s (a ++ b) = scan s1 b := by
  rw [scan_append, h]

/-- Decoding string content that starts with plain characters. -/
theorem unquote_chr_append (cs : List Char) (rest : List StrItem) :
    unquote (cs.map StrItem.chr ++ rest) = cs ++ unquote rest := by
  induction cs with
  | nil => rfl
  | cons c cs ih => simp [unquote, ih]

/-- Decoding string content made of plain characters. -/
theorem unquote_chr (cs : List Char) : unquote (cs.map StrItem.chr) = cs := by
  have h := unquote_chr_append cs []
  simpa [unquote] using h

/-- Inside a string literal, characters that need no escape are taken as they are. -/
theorem scan_inString_safe (ps : List Frame) (cs : List Char) :
    ∀ acc : List StrItem, cs.all safeChar = true →
      scan ⟨.inString acc, ps⟩ cs = some ⟨.inString (acc ++ cs.map StrItem.chr), ps⟩ := by
  induction cs with
  | nil => intro acc _; simp [scan]
  | cons c cs ih =>
    intro acc h
    simp only [List.all_cons, Bool.and_eq_true] at h
    obtain ⟨hc, hcs⟩ := h
    simp only [safeChar, Bool.and_eq_true, bne_iff_ne, ne_eq, decide_eq_true_eq] at hc
    obtain ⟨⟨h1, h2⟩, h3⟩ := hc
    have h4 : ¬ c.toNat < 32 := by omega
    simp only [scan, Scanner.next, stateInString, h1, h2, h4, if_false]
    rw [ih (acc ++ [StrItem.chr c]) hcs]
    simp

/-- The body `{"error": "<m>"}` followed by a newline is a JSON object with the single
member `error`, of value `m`, when `m` needs no escape. -/
theorem parseJson_error_body (m : String) (hm : jsonSafe m = true) :
    parseJson ("\x7b\"error\": \"" ++ m ++ "\"\x7d" ++ "\n") =
      some (.obj [("error", .str m)]) := by
  have h1 : scan Scanner.init "\x7b\"error\": \"".data =
      some ⟨.inString [], [.objectValue [] "error"]⟩ := by rfl
  have h2 := scan_inString_safe [.objectValue [] "error"] m.data [] hm
  unfold parseJson
  simp only [String.data_append]
  rw [List.append_assoc, List.append_assoc, scan_append_of _ _ _ _ h1, scan_append_of _ _ _ _ h2]
  simp [scan, Scanner.next, stateInString, stateEndValue, isSpace, popParseState, stateEndTop,
    Scanner.eof, unquote_chr]

/-! ### Error bodies -/

/-- C4, as amended: the handler always returns.  A request that is not a GET gets status
405 and the plain text "Method not allowed" (not JSON).  A pipeline error and a result
parse error get status 500 and a text body that starts `{"error": "Failed to analyze: `,
respectively `{"error": "Failed to parse results: `; whenever the error message contains no
double quote, no backslash and no control character, that body is a JSON object with the
single member `error`, whose value is the string made of the prefix and the message.  No
other response has status 500. -/
theorem error_body_shape (env : Env) (r : Request) :
    ∃ o, analyzeHandler env r = some o ∧
      (r.method ≠ "GET" → o.response = ⟨405, .text "Method not allowed\n"⟩) ∧
      (∀ run e, r.method = "GET" → chromedpRun env (targetURL r) env.start "" = some run →
        run.err = some e →
        o.response.status = 500 ∧
        ∃ body, o.response.body = .text body ∧
          (∃ rest, body = "\x7b\"error\": \"Failed to analyze: " ++ rest) ∧
          (jsonSafe e = true →
            parseJson body = some (.obj [("error", .str ("Failed to analyze: " ++ e))]) ∧
            isErrorObject body = true)) ∧
      (∀ run uerr, r.method = "GET" → chromedpRun env (targetURL r) env.start "" = some run →
        run.err = none →
        Unmarshal (if run.violationsJSON = "" then "[]" else run.violationsJSON) .nil =
          .error uerr →
        o.response.status = 500 ∧
        ∃ body, o.response.body = .text body ∧
          (∃ rest, body = "\x7b\"error\": \"Failed to parse results: " ++ rest) ∧
          (jsonSafe (env.unmarshalErrorText
              (if run.violationsJSON = "" then "[]" else run.violationsJSON)) = true →
            parseJson body = some (.obj [("error", .str ("Failed to parse results: " ++
              env.unmarshalErrorText
                (if run.violationsJSON = "" then "[]" else run.violationsJSON)))]) ∧
            isErrorObject body = true)) ∧
      (o.response.status = 500 →
        r.method = "GET" ∧
        ∃ run, chromedpRun env (targetURL r) env.start "" = some run ∧
          ((∃ e, run.err = some e) ∨
            ∃ uerr, Unmarshal (if run.violationsJSON = "" then "[]" else run.violationsJSON)
              .nil = .error uerr)) := by
  have hsafe : ∀ p m : String, jsonSafe p = true → jsonSafe m = true →
      parseJson ("\x7b\"error\": \"" ++ (p ++ m) ++ "\"\x7d" ++ "\n") =
          some (.obj [("error", .str (p ++ m))]) ∧
        isErrorObject ("\x7b\"error\": \"" ++ (p ++ m) ++ "\"\x7d" ++ "\n") = true := by
    intro p m hp hm
    have hpm : jsonSafe (p ++ m) = true := by
      simp only [jsonSafe, String.data_append, List.all_append, Bool.and_eq_true] at *
      exact ⟨hp, hm⟩
    have h := parseJson_error_body (p ++ m) hpm
    exact ⟨h, by simp [isErrorObject, h]⟩
  have hbody : ∀ p m : String,
      httpError ("\x7b\"error\": \"" ++ p ++ m ++ "\"\x7d") 500 =
        ⟨500, .text ("\x7b\"error\": \"" ++ (p ++ m) ++ "\"\x7d" ++ "\n")⟩ := by
    intro p m
    simp [httpError, String.append_assoc]
  have hb1 : ("\x7b\"error\": \"Failed to analyze: " : String) =
      "\x7b\"error\": \"" ++ "Failed to analyze: " := by decide
  have hb2 : ("\x7b\"error\": \"Failed to parse results: " : String) =
      "\x7b\"error\": \"" ++ "Failed to parse results: " := by decide
  have hshape : ∀ p m : String, jsonSafe p = true →
      ∃ body, Body.text ("\x7b\"error\": \"" ++ (p ++ m) ++ "\"\x7d" ++ "\n") = .text body ∧
        (∃ rest, body = "\x7b\"error\": \"" ++ p ++ rest) ∧
        (jsonSafe m = true →
          parseJson body = some (.obj [("error", .str (p ++ m))]) ∧
          isErrorObject body = true) := by
    intro p m hp
    refine ⟨_, rfl, ⟨m ++ "\"\x7d" ++ "\n", by simp [String.append_assoc]⟩, ?_⟩
    intro hm
    exact hsafe p m hp hm
  by_cases hm : r.method = "GET"
  · obtain ⟨run, hrun⟩ := chromedpRun_isSome env (targetURL r) env.start ""
    rw [analyzeHandler_get env r hm run hrun]
    cases herr : run.err with
    | some e =>
      simp only
      rw [hb1, hbody]
      refine ⟨_, rfl, fun h => absurd hm h, ?_, ?_, fun _ => ⟨hm, run, hrun, Or.inl ⟨e, herr⟩⟩⟩
      · intro run1 e1 _ hrun1 herr1
        rw [hrun] at hrun1
        cases hrun1
        rw [herr] at herr1
        cases herr1
        exact ⟨rfl, hshape "Failed to analyze: " e (by decide)⟩
      · intro run1 uerr _ hrun1 herr1
        rw [hrun] at hrun1
        cases hrun1
        rw [herr] at herr1
        cases herr1
    | none =>
      simp only
      cases hu : Unmarshal (if run.violationsJSON = "" then "[]" else run.violationsJSON) .nil with
      | error e =>
        simp only
        rw [hb2, hbody]
        refine ⟨_, rfl, fun h => absurd hm h, ?_, ?_,
          fun _ => ⟨hm, run, hrun, Or.inr ⟨e, hu⟩⟩⟩
        · intro run1 e1 _ hrun1 herr1
          rw [hrun] at hrun1
          cases hrun1
          rw [herr] at herr1
          cases herr1
        · intro run1 uerr _ hrun1 _ _
          rw [hrun] at hrun1
          cases hrun1
          exact ⟨rfl, hshape "Failed to parse results: " _ (by decide)⟩
      | ok v =>
        refine ⟨_, rfl, fun h => absurd hm h, ?_, ?_, fun h => by simp at h⟩
        · intro run1 e1 _ hrun1 herr1
          rw [hrun] at hrun1
          cases hrun1
          rw [herr] at herr1
          cases herr1
        · intro run1 uerr _ hrun1 _ hu1
          rw [hrun] at hrun1
          cases hrun1
          rw [hu] at hu1
          cases hu1
  · rw [analyzeHandler_not_get env r hm]
    exact ⟨_, rfl, fun _ => rfl, fun _ _ h => absurd h hm, fun _ _ h => absurd h hm,
      fun h => by simp at h⟩

/-- C4, counterexample: the body of the 405 response is the text "Method not allowed", not
a JSON object.  Further, when the pipeline fails with an error text that contains a double
quote (here the text of a browser that is not installed), the body of the 500 response is
not valid JSON either: `fmt.Sprintf` with `%s` does not escape the text. -/
theorem error_body_not_json :
    analyzeHandler (Env.sample "[]" 0 0) ⟨"POST", []⟩ =
      some ⟨⟨405, .text "Method not allowed\n"⟩, []⟩ ∧
    isErrorObject "Method not allowed\n" = false ∧
    (analyzeHandler (Env.failing "exec: \"google-chrome\": executable file not found in $PATH")
        ⟨"GET", []⟩).map (fun o => o.response) =
      some ⟨500, .text
        "\x7b\"error\": \"Failed to analyze: exec: \"google-chrome\": executable file not found in $PATH\"\x7d\n"⟩ ∧
    isErrorObject
      "\x7b\"error\": \"Failed to analyze: exec: \"google-chrome\": executable file not found in $PATH\"\x7d\n"
      = false := by
  decide

/-! ### Results that are not violation arrays -/

/-- What `Unmarshal` into a nil slice returns without error: the nil slice exactly when
the value of the text is `null`, and a non-nil slice when it is an array. -/
theorem Unmarshal_ok_cases (s : String) (v : GoSlice AxeResult)
    (h : Unmarshal s .nil = .ok v) :
    (parseJson s = some .null ∧ v = .nil) ∨
    (∃ xs elems spare, parseJson s = some (.arr xs) ∧ v = .mk elems spare) := by
  unfold Unmarshal at h
  cases hp : parseJson s with
  | none => simp [hp] at h
  | some j =>
    simp only [hp] at h
    cases j with
    | null =>
      simp [storeSlice] at h
      exact Or.inl ⟨rfl, h.symm⟩
    | arr xs =>
      cases xs with
      | nil =>
        simp [storeSlice] at h
        exact Or.inr ⟨[], [], [], rfl, h.symm⟩
      | cons x xs =>
        simp only [storeSlice] at h
        split at h
        · simp only [Except.ok.injEq] at h
          exact Or.inr ⟨_, _, _, rfl, h.symm⟩
        · simp at h
    | bool b => simp [storeSlice] at h
    | num n => simp [storeSlice] at h
    | str t => simp [storeSlice] at h
    | obj ms => simp [storeSlice] at h

/-- In every success body the `violations` member is encoded as an array, except when the
value of the parsed text is `null`: then it is encoded as `null`. -/
theorem success_violations_array_or_null (env : Env) (r : Request) (o : Outcome)
    (sr : ScanResponse) (ho : analyzeHandler env r = some o)
    (hb : o.response.body = .encoded sr) :
    (marshalViolations sr.violations).isArray = true ∨
    ((marshalViolations sr.violations).isNull = true ∧
      ∃ run, chromedpRun env (targetURL r) env.start "" = some run ∧
        parseJson (if run.violationsJSON = "" then "[]" else run.violationsJSON) =
          some .null) := by
  by_cases hm : r.method = "GET"
  · obtain ⟨run, hrun⟩ := chromedpRun_isSome env (targetURL r) env.start ""
    rw [analyzeHandler_get env r hm run hrun] at ho
    cases herr : run.err with
    | some e =>
      simp only [herr, Option.some.injEq] at ho
      subst ho
      simp [httpError] at hb
    | none =>
      simp only [herr] at ho
      cases hu : Unmarshal (if run.violationsJSON = "" then "[]" else run.violationsJSON) .nil with
      | error e =>
        simp only [hu, Option.some.injEq] at ho
        subst ho
        simp [httpError] at hb
      | ok v =>
        simp only [hu, Option.some.injEq] at ho
        subst ho
        simp only [Body.encoded.injEq] at hb
        subst hb
        rcases Unmarshal_ok_cases _ v hu with ⟨hp, rfl⟩ | ⟨xs, elems, spare, hp, rfl⟩
        · exact Or.inr ⟨rfl, run, hrun, hp⟩
        · exact Or.inl rfl
  · rw [analyzeHandler_not_get env r hm] at ho
    simp only [Option.some.injEq] at ho
    subst ho
    simp at hb

/-- C2, the failing input: when the pipeline succeeds and the extracted string is the JSON
text `null`, the parse succeeds and leaves `violations` the nil slice, and the handler
answers with status 200 and a body whose `violations` member is JSON `null`, not an array
(with `count` 0). -/
theorem null_result_gives_null_violations (env : Env) (r : Request) (hm : r.method = "GET")
    (run : TaskResult) (hrun : chromedpRun env (targetURL r) env.start "" = some run)
    (herr : run.err = none) (hnull : run.violationsJSON = "null") :
    Unmarshal "null" .nil = .ok .nil ∧
    analyzeHandler env r =
      some ⟨⟨200, .encoded ⟨targetURL r, env.timestamp, .nil, 0⟩⟩,
            setupTrace env ++ run.trace⟩ ∧
    (marshalResponse ⟨targetURL r, env.timestamp, .nil, 0⟩).field "violations" = some .null ∧
    ((marshalResponse ⟨targetURL r, env.timestamp, .nil, 0⟩).field "violations").map
      Json.isArray = some false := by
  have h2 : Unmarshal "null" .nil = .ok .nil := by decide
  refine ⟨h2, ?_, ?_, ?_⟩
  · rw [analyzeHandler_get env r hm run hrun]
    simp only [herr, hnull, h2]
    rfl
  · simp [marshalResponse, Json.field, List.lookup, marshalViolations]
  · simp [marshalResponse, Json.field, List.lookup, marshalViolations, Json.isArray]

/-- C2, witness: an environment whose result holder contains the text `null`. -/
theorem null_result_gives_null_violations_witness :
    ∃ run, chromedpRun (Env.sample "null" 2 3) (targetURL ⟨"GET", [("url", "https://example.com")]⟩)
        (Env.sample "null" 2 3).start "" = some run ∧
      run.err = none ∧ run.violationsJSON = "null" ∧
      analyzeHandler (Env.sample "null" 2 3) ⟨"GET", [("url", "https://example.com")]⟩ =
        some ⟨⟨200, .encoded ⟨"https://example.com", "2024-01-01T00:00:00Z", .nil, 0⟩⟩,
              setupTrace (Env.sample "null" 2 3) ++ run.trace⟩ := by
  obtain ⟨run, hrun, herr, hvj⟩ := taskResult_of_map
    (chromedpRun (Env.sample "null" 2 3) (targetURL ⟨"GET", [("url", "https://example.com")]⟩)
      (Env.sample "null" 2 3).start "") none "null" (by decide)
  exact ⟨run, hrun, herr, hvj,
    (null_result_gives_null_violations (Env.sample "null" 2 3)
      ⟨"GET", [("url", "https://example.com")]⟩ rfl run hrun herr hvj).2.1⟩

/-- C5, counterexample: the texts `null` and `[{}]` are non-empty and are not well-formed
serialized violation arrays, yet the handler answers both with status 200: for `null`
with nil `violations` and `count` 0, for `[{}]` with one all-zero violation. -/
theorem non_array_result_accepted :
    ("null" : String) ≠ "" ∧ isViolationArray "null" = false ∧
    (analyzeHandler (Env.sample "null" 0 0) ⟨"GET", []⟩).map (fun o => o.response) =
      some ⟨200, .encoded ⟨"Type you URL", "2024-01-01T00:00:00Z", .nil, 0⟩⟩ ∧
    ("[\x7b\x7d]" : String) ≠ "" ∧ isViolationArray "[\x7b\x7d]" = false ∧
    (analyzeHandler (Env.sample "[\x7b\x7d]" 0 0) ⟨"GET", []⟩).map (fun o => o.response) =
      some ⟨200, .encoded ⟨"Type you URL", "2024-01-01T00:00:00Z",
        .mk [AxeResult.zero] [], 1⟩⟩ := by
  decide

/-! ### Scanning what `JSON.stringify` writes -/

/-- A `\u` escape of a code below the surrogate range decodes to the character of that
code. -/
theorem unquote_esc_of_lt (u : Nat) (hu : u < 0xD800) (rest : List StrItem) :
    unquote (.esc u :: rest) = Char.ofNat u :: unquote rest := by
  have h : ¬ (0xD800 ≤ u ∧ u < 0xE000) := by omega
  cases rest with
  | nil => simp [unquote, h]
  | cons item rest =>
    cases item with
    | chr c => simp [unquote, h]
    | esc u2 => simp [unquote, h]

/-- The scanner reads the text of one character as one content unit. -/
theorem scan_quoteChar (c : Char) (acc : List StrItem) (ps : List Frame) :
    scan ⟨.inString acc, ps⟩ (quoteChar c) = some ⟨.inString (acc ++ [quoteItem c]), ps⟩ := by
  by_cases h32 : c.toNat < 32
  · obtain ⟨k, hk⟩ : ∃ k, k = c.toNat := ⟨_, rfl⟩
    have hc : c = Char.ofNat k := by rw [hk]; exact (Char.ofNat_toNat c).symm
    rw [← hk] at h32
    subst hc
    clear hk
    interval_cases k <;> rfl
  · by_cases h1 : c = '"'
    · subst h1; rfl
    · by_cases h2 : c = '\\'
      · subst h2; rfl
      · have h3 : c ≠ Char.ofNat 8 := by rintro rfl; exact h32 (by decide)
        have h4 : c ≠ Char.ofNat 12 := by rintro rfl; exact h32 (by decide)
        have h5 : c ≠ '\n' := by rintro rfl; exact h32 (by decide)
        have h6 : c ≠ '\r' := by rintro rfl; exact h32 (by decide)
        have h7 : c ≠ '\t' := by rintro rfl; exact h32 (by decide)
        simp [quoteChar, quoteItem, needsUEscape, h1, h2, h3, h4, h5, h6, h7, h32, scan,
          Scanner.next, stateInString]

/-- The scanner reads the text of the characters of a string as their content units. -/
theorem scan_quoteChars (ps : List Frame) (cs : List Char) :
    ∀ acc : List StrItem,
      scan ⟨.inString acc, ps⟩ (quoteChars cs) =
        some ⟨.inString (acc ++ cs.map quoteItem), ps⟩ := by
  induction cs with
  | nil => intro acc; simp [quoteChars, scan]
  | cons c cs ih =>
    intro acc
    rw [quoteChars, scan_append_of _ _ _ _ (scan_quoteChar c acc ps), ih]
    simp

/-- Decoding the content units of a string gives the string back. -/
theorem unquote_quoteItem (cs : List Char) : unquote (cs.map quoteItem) = cs := by
  induction cs with
  | nil => rfl
  | cons c cs ih =>
    simp only [List.map_cons]
    by_cases h : needsUEscape c = true
    · have hlt : c.toNat < 32 := by
        simp only [needsUEscape, Bool.and_eq_true, decide_eq_true_eq] at h
        exact h.1.1.1.1.1
      simp only [quoteItem, h, if_true]
      rw [unquote_esc_of_lt _ (by omega), ih, Char.ofNat_toNat]
    · simp only [quoteItem, h]
      simp [unquote, ih]

/-- Where a value may begin, the scanner reads the text of a string as that string. -/
theorem scan_quoteJSONString (s : String) (st : Step) (ps : List Frame)
    (hst : st.beginsValue = true) :
    scan ⟨st, ps⟩ (quoteJSONString s) = some ⟨.endValue (.str s), ps⟩ := by
  have h1 : scan ⟨st, ps⟩ ['"'] = some ⟨.inString [], ps⟩ := by
    cases st <;> simp [Step.beginsValue] at hst <;> rfl
  have h2 := scan_quoteChars ps s.data []
  unfold quoteJSONString
  rw [show '"' :: quoteChars s.data ++ ['"'] = ['"'] ++ (quoteChars s.data ++ ['"']) from rfl,
    scan_append_of _ _ _ _ h1, scan_append_of _ _ _ _ h2]
  simp [scan, Scanner.next, stateInString, unquote_quoteItem]

/-- Popping to a stack that is not empty leaves the scanner after a value. -/
theorem popParseState_cons (v : Json) (f : Frame) (ps : List Frame) :
    popParseState v (f :: ps) = ⟨.endValue v, f :: ps⟩ := rfl

/-- After an element of an array, the scanner reads the remaining elements and the closing
bracket, given that it reads each element (`d` bounds the nesting inside an element). -/
theorem scan_commaTail {α : Type} (ser : α → List Char) (val : α → Json) (d : Nat)
    (helem : ∀ (x : α) (st : Step) (f : Frame) (ps : List Frame), st.beginsValue = true →
      (f :: ps).length + d ≤ maxNestingDepth →
      scan ⟨st, f :: ps⟩ (ser x) = some ⟨.endValue (val x), f :: ps⟩)
    (ps : List Frame) (hd : ps.length + 1 + d ≤ maxNestingDepth) :
    ∀ (xs : List α) (done : List Json) (last : Json),
      scan ⟨.endValue last, .arrayValue done :: ps⟩ (commaTail (xs.map ser) ++ [']']) =
        some (popParseState (.arr (done ++ last :: xs.map val)) ps) := by
  intro xs
  induction xs with
  | nil =>
    intro done last
    simp [commaTail, scan, Scanner.next, stateEndValue, isSpace]
  | cons x xs ih =>
    intro done last
    have h1 : scan ⟨.endValue last, .arrayValue done :: ps⟩ [','] =
        some ⟨.beginValue, .arrayValue (done ++ [last]) :: ps⟩ := by
      simp [scan, Scanner.next, stateEndValue, isSpace]
    have h2 := helem x .beginValue (.arrayValue (done ++ [last])) ps rfl
      (by simpa using hd)
    simp only [List.map_cons, commaTail]
    rw [show ',' :: ser x ++ commaTail (xs.map ser) ++ [']'] =
        [','] ++ (ser x ++ (commaTail (xs.map ser) ++ [']'])) by simp,
      scan_append_of _ _ _ _ h1, scan_append_of _ _ _ _ h2, ih]
    simp

/-- Where a value may begin, the scanner reads the text of an array as the array of the
values of its elements, given that it reads each element. -/
theorem scan_arrayText {α : Type} (ser : α → List Char) (val : α → Json) (d : Nat)
    (helem : ∀ (x : α) (st : Step) (f : Frame) (ps : List Frame), st.beginsValue = true →
      (f :: ps).length + d ≤ maxNestingDepth →
      scan ⟨st, f :: ps⟩ (ser x) = some ⟨.endValue (val x), f :: ps⟩)
    (xs : List α) (st : Step) (ps : List Frame) (hst : st.beginsValue = true)
    (hd : ps.length + 1 + d ≤ maxNestingDepth) :
    scan ⟨st, ps⟩ (arrayText (xs.map ser)) = some (popParseState (.arr (xs.map val)) ps) := by
  have hpush : ps.length + 1 ≤ maxNestingDepth := by omega
  have h1 : scan ⟨st, ps⟩ ['['] = some ⟨.beginValueOrEmpty, .arrayValue [] :: ps⟩ := by
    cases st <;> simp [Step.beginsValue] at hst <;>
      simp [scan, Scanner.next, stateBeginValue, stateBeginValueOrEmpty, isSpace,
        pushParseState, hpush]
  unfold arrayText
  rw [show '[' :: joinComma (xs.map ser) ++ [']'] = ['['] ++ (joinComma (xs.map ser) ++ [']'])
      from rfl, scan_append_of _ _ _ _ h1]
  cases xs with
  | nil =>
    simp [joinComma, scan, Scanner.next, stateBeginValueOrEmpty, isSpace]
  | cons x xs =>
    have h2 := helem x .beginValueOrEmpty (.arrayValue []) ps rfl (by simpa using hd)
    simp only [List.map_cons, joinComma]
    rw [List.append_assoc, scan_append_of _ _ _ _ h2,
      scan_commaTail ser val d helem ps hd xs [] (val x)]
    simp

/-- Where a value may begin, the scanner reads `{` and a first key that needs no
escape. -/
theorem scan_objOpen (key : String) (hkey : jsonSafe key = true) (st : Step)
    (ps : List Frame) (hst : st.beginsValue = true) (hd : ps.length + 1 ≤ maxNestingDepth) :
    scan ⟨st, ps⟩ (objOpen key) = some ⟨.beginValue, .objectValue [] key :: ps⟩ := by
  have h1 : scan ⟨st, ps⟩ ['{', '"'] = some ⟨.inString [], .objectKey [] :: ps⟩ := by
    cases st <;> simp [Step.beginsValue] at hst <;>
      simp [scan, Scanner.next, stateBeginValue, stateBeginValueOrEmpty, isSpace,
        pushParseState, hd, stateBeginStringOrEmpty, stateBeginString]
  have h2 := scan_inString_safe (.objectKey [] :: ps) key.data [] hkey
  unfold objOpen
  rw [show '{' :: '"' :: key.data ++ ['"', ':'] = ['{', '"'] ++ (key.data ++ ['"', ':'])
      from rfl, scan_append_of _ _ _ _ h1, scan_append_of _ _ _ _ h2]
  simp [scan, Scanner.next, stateInString, stateEndValue, isSpace, unquote_chr]

/-- After the value of a member, the scanner reads a comma and a further key that needs
no escape. -/
theorem scan_objNext (key : String) (hkey : jsonSafe key = true) (last : Json)
    (done : List (String × Json)) (k : String) (ps : List Frame) :
    scan ⟨.endValue last, .objectValue done k :: ps⟩ (objNext key) =
      some ⟨.beginValue, .objectValue (done ++ [(k, last)]) key :: ps⟩ := by
  have h1 : scan ⟨.endValue last, .objectValue done k :: ps⟩ [',', '"'] =
      some ⟨.inString [], .objectKey (done ++ [(k, last)]) :: ps⟩ := by
    simp [scan, Scanner.next, stateEndValue, isSpace, stateBeginString]
  have h2 := scan_inString_safe (.objectKey (done ++ [(k, last)]) :: ps) key.data [] hkey
  unfold objNext
  rw [show ',' :: '"' :: key.data ++ ['"', ':'] = [',', '"'] ++ (key.data ++ ['"', ':'])
      from rfl, scan_append_of _ _ _ _ h1, scan_append_of _ _ _ _ h2]
  simp [scan, Scanner.next, stateInString, stateEndValue, isSpace, unquote_chr]

/-- After the value of the last member, the scanner reads the closing brace. -/
theorem scan_objClose (last : Json) (done : List (String × Json)) (k : String)
    (ps : List Frame) :
    scan ⟨.endValue last, .objectValue done k :: ps⟩ ['}'] =
      some (popParseState (.obj (done ++ [(k, last)])) ps) := by
  simp [scan, Scanner.next, stateEndValue, isSpace]

/-- The scanner reads the text of an array of strings. -/
theorem scan_strings (xs : List String) (st : Step) (ps : List Frame)
    (hst : st.beginsValue = true) (hd : ps.length + 1 ≤ maxNestingDepth) :
    scan ⟨st, ps⟩ (arrayText (xs.map quoteJSONString)) =
      some (popParseState (.arr (xs.map Json.str)) ps) :=
  scan_arrayText quoteJSONString Json.str 0
    (fun x st f ps hst _ => scan_quoteJSONString x st (f :: ps) hst) xs st ps hst (by omega)

/-- The scanner reads the text of a node as the value tree of the node. -/
theorem scan_stringifyNode (n : ViolationNode) (st : Step) (ps : List Frame)
    (hst : st.beginsValue = true) (hd : ps.length + 2 ≤ maxNestingDepth) :
    scan ⟨st, ps⟩ (stringifyNode n) = some (popParseState n.toJson ps) := by
  unfold stringifyNode
  simp only [List.append_assoc]
  rw [scan_append_of _ _ _ _ (scan_objOpen "impact" (by decide) st ps hst (by omega)),
    scan_append_of _ _ _ _ (scan_quoteJSONString n.impact .beginValue _ rfl),
    scan_append_of _ _ _ _ (scan_objNext "html" (by decide) _ _ _ _),
    scan_append_of _ _ _ _ (scan_quoteJSONString n.html .beginValue _ rfl),
    scan_append_of _ _ _ _ (scan_objNext "target" (by decide) _ _ _ _),
    scan_append_of _ _ _ _ (scan_strings n.target .beginValue _ rfl (by simp; omega)),
    popParseState_cons,
    scan_append_of _ _ _ _ (scan_objNext "failureSummary" (by decide) _ _ _ _),
    scan_append_of _ _ _ _ (scan_quoteJSONString n.failureSummary .beginValue _ rfl),
    scan_objClose]
  rfl

/-- The scanner reads the text of a violation as the value tree of the violation. -/
theorem scan_stringifyViolation (v : Violation) (st : Step) (ps : List Frame)
    (hst : st.beginsValue = true) (hd : ps.length + 4 ≤ maxNestingDepth) :
    scan ⟨st, ps⟩ (stringifyViolation v) = some (popParseState v.toJson ps) := by
  have hnodes := scan_arrayText stringifyNode ViolationNode.toJson 2
    (fun x st f ps hst hd => by
      rw [scan_stringifyNode x st (f :: ps) hst hd, popParseState_cons])
    v.nodes .beginValue (.objectValue
      ([] ++ [("id", Json.str v.id)] ++ [("impact", Json.str v.impact)] ++
        [("tags", Json.arr (v.tags.map Json.str))] ++
        [("description", Json.str v.description)] ++ [("help", Json.str v.help)] ++
        [("helpUrl", Json.str v.helpUrl)]) "nodes" :: ps) rfl (by simp; omega)
  unfold stringifyViolation
  simp only [List.append_assoc]
  rw [scan_append_of _ _ _ _ (scan_objOpen "id" (by decide) st ps hst (by omega)),
    scan_append_of _ _ _ _ (scan_quoteJSONString v.id .beginValue _ rfl),
    scan_append_of _ _ _ _ (scan_objNext "impact" (by decide) _ _ _ _),
    scan_append_of _ _ _ _ (scan_quoteJSONString v.impact .beginValue _ rfl),
    scan_append_of _ _ _ _ (scan_objNext "tags" (by decide) _ _ _ _),
    scan_append_of _ _ _ _ (scan_strings v.tags .beginValue _ rfl (by simp; omega)),
    popParseState_cons,
    scan_append_of _ _ _ _ (scan_objNext "description" (by decide) _ _ _ _),
    scan_append_of _ _ _ _ (scan_quoteJSONString v.description .beginValue _ rfl),
    scan_append_of _ _ _ _ (scan_objNext "help" (by decide) _ _ _ _),
    scan_append_of _ _ _ _ (scan_quoteJSONString v.help .beginValue _ rfl),
    scan_append_of _ _ _ _ (scan_objNext "helpUrl" (by decide) _ _ _ _),
    scan_append_of _ _ _ _ (scan_quoteJSONString v.helpUrl .beginValue _ rfl),
    scan_append_of _ _ _ _ (scan_objNext "nodes" (by decide) _ _ _ _),
    scan_append_of _ _ _ _ hnodes,
    popParseState_cons, scan_objClose]
  rfl

/-- The text `JSON.stringify` writes for a list of violations is valid JSON, and its value
is the array of the value trees of the violations. -/
theorem parseJson_jsonStringify (vs : List Violation) :
    parseJson (jsonStringify vs) = some (.arr (vs.map Violation.toJson)) := by
  have h := scan_arrayText stringifyViolation Violation.toJson 4
    (fun x st f ps hst hd => by
      rw [scan_stringifyViolation x st (f :: ps) hst hd, popParseState_cons])
    vs .beginValue [] rfl (by simp [maxNestingDepth])
  unfold parseJson jsonStringify
  simp only [Scanner.init]
  rw [h]
  rfl

/-! ### Truncated texts -/

/-- Case analysis on a conditional that returned a result. -/
theorem of_ite_eq_some {α : Type} {P : Prop} {c : Prop} [Decidable c] {a b : Option α}
    {x : α} (h : (if c then a else b) = some x) (ha : c → a = some x → P)
    (hb : ¬ c → b = some x → P) : P := by
  by_cases hc : c
  · rw [if_pos hc] at h; exact ha hc h
  · rw [if_neg hc] at h; exact hb hc h

/-- A step inside a string literal leaves the parse-state stack as it is. -/
theorem stateInString_stack (acc : List StrItem) (ps : List Frame) (c : Char)
    (s1 : Scanner) (hn : stateInString acc ps c = some s1) : s1.parseState = ps := by
  unfold stateInString at hn
  repeat' (first
    | refine of_ite_eq_some hn (fun _ hn => ?_) (fun _ hn => ?_)
    | (cases hn; rfl)
    | cases hn)

/-- A step after a backslash leaves the parse-state stack as it is. -/
theorem stateInStringEsc_stack (acc : List StrItem) (ps : List Frame) (c : Char)
    (s1 : Scanner) (hn : stateInStringEsc acc ps c = some s1) : s1.parseState = ps := by
  unfold stateInStringEsc at hn
  repeat' (first
    | refine of_ite_eq_some hn (fun _ hn => ?_) (fun _ hn => ?_)
    | (cases hn; rfl)
    | cases hn)

/-- A step inside a `\u` escape leaves the parse-state stack as it is. -/
theorem stateInStringEscU_stack (acc : List StrItem) (n code : Nat) (ps : List Frame)
    (c : Char) (s1 : Scanner) (hn : stateInStringEscU acc n code ps c = some s1) :
    s1.parseState = ps := by
  unfold stateInStringEscU at hn
  cases hh : hexVal c with
  | none => rw [hh] at hn; cases hn
  | some k =>
    rw [hh] at hn
    refine of_ite_eq_some hn (fun _ hn => ?_) (fun _ hn => ?_)
    · cases hn; rfl
    · cases hn; rfl

/-- A step inside a literal leaves the parse-state stack as it is. -/
theorem stateLiteral_stack (expect : List Char) (v : Json) (ps : List Frame) (c : Char)
    (s1 : Scanner) (hn : stateLiteral expect v ps c = some s1) : s1.parseState = ps := by
  cases expect with
  | nil => cases hn
  | cons x rest =>
    cases rest with
    | nil =>
      refine of_ite_eq_some hn (fun _ hn => ?_) (fun _ hn => ?_)
      · cases hn; rfl
      · cases hn
    | cons y rest =>
      refine of_ite_eq_some hn (fun _ hn => ?_) (fun _ hn => ?_)
      · cases hn; rfl
      · cases hn

/-- A step inside a literal stays inside it, or completes it. -/
theorem stateLiteral_step (expect : List Char) (v : Json) (ps : List Frame) (c : Char)
    (s1 : Scanner) (hn : stateLiteral expect v ps c = some s1) :
    (∃ e, s1.step = .inLiteral e v) ∨ s1.step = .endValue v := by
  cases expect with
  | nil => cases hn
  | cons x rest =>
    cases rest with
    | nil =>
      refine of_ite_eq_some hn (fun _ hn => ?_) (fun _ hn => ?_)
      · cases hn; exact Or.inr rfl
      · cases hn
    | cons y rest =>
      refine of_ite_eq_some hn (fun _ hn => ?_) (fun _ hn => ?_)
      · cases hn; exact Or.inl ⟨_, rfl⟩
      · cases hn

/-- After the top-level value, a step is a space and leaves the scanner there. -/
theorem stateEndTop_eq (v : Json) (c : Char) (s1 : Scanner)
    (hn : stateEndTop v c = some s1) : s1 = ⟨.endTop v, []⟩ ∧ isSpace c = true := by
  unfold stateEndTop at hn
  refine of_ite_eq_some hn (fun hc hn => ?_) (fun _ hn => ?_)
  · cases hn; exact ⟨rfl, hc⟩
  · cases hn

/-- Once the top-level value is a string, a number or a literal, it stays one. -/
theorem next_inScalar (s s1 : Scanner) (c : Char) (h : s.inScalar = true)
    (hn : s.next c = some s1) : s1.inScalar = true := by
  obtain ⟨step, ps⟩ := s
  cases ps with
  | cons f ps => exact absurd h (by simp [Scanner.inScalar])
  | nil =>
    cases step with
    | beginValue => exact absurd h (by simp [Scanner.inScalar])
    | beginValueOrEmpty => exact absurd h (by simp [Scanner.inScalar])
    | beginString => exact absurd h (by simp [Scanner.inScalar])
    | beginStringOrEmpty => exact absurd h (by simp [Scanner.inScalar])
    | inString acc =>
      have hn : stateInString acc [] c = some s1 := hn
      unfold stateInString at hn
      repeat' (first
        | refine of_ite_eq_some hn (fun _ hn => ?_) (fun _ hn => ?_)
        | (cases hn; rfl)
        | cases hn)
    | inStringEsc acc =>
      have hn : stateInStringEsc acc [] c = some s1 := hn
      unfold stateInStringEsc at hn
      repeat' (first
        | refine of_ite_eq_some hn (fun _ hn => ?_) (fun _ hn => ?_)
        | (cases hn; rfl)
        | cases hn)
    | inStringEscU acc n code =>
      have hn : stateInStringEscU acc n code [] c = some s1 := hn
      unfold stateInStringEscU at hn
      cases hh : hexVal c with
      | none => rw [hh] at hn; cases hn
      | some k =>
        rw [hh] at hn
        refine of_ite_eq_some hn (fun _ hn => ?_) (fun _ hn => ?_)
        · cases hn; rfl
        · cases hn; rfl
    | inNumber st lit =>
      have hn : stateNumber st lit [] c = some s1 := hn
      cases st
      all_goals
        unfold stateNumber at hn
        try unfold state0 at hn
        try unfold stateESign at hn
        try unfold stateEndValue at hn
        try unfold stateEndTop at hn
        repeat' (first
          | refine of_ite_eq_some hn (fun _ hn => ?_) (fun _ hn => ?_)
          | (cases hn; rfl)
          | cases hn)
    | inLiteral expect v =>
      have hn : stateLiteral expect v [] c = some s1 := hn
      have hs := stateLiteral_stack _ _ _ _ _ hn
      have hv : (!v.isCompound) = true := h
      obtain ⟨step1, ps1⟩ := s1
      simp only at hs
      subst hs
      rcases stateLiteral_step _ _ _ _ _ hn with ⟨e, he⟩ | he
      · simp only at he; subst he; exact hv
      · simp only at he; subst he; exact hv
    | endValue last =>
      have hn : stateEndTop last c = some s1 := hn
      rw [(stateEndTop_eq _ _ _ hn).1]
      exact h
    | endTop v =>
      have hn : stateEndTop v c = some s1 := hn
      rw [(stateEndTop_eq _ _ _ hn).1]
      exact h

/-- Popping after an array or an object stays on the way through an array or an object. -/
theorem popParseState_inCompound (v : Json) (hv : v.isCompound = true) (ps : List Frame) :
    (popParseState v ps).inCompound = true := by
  cases ps <;> simp [popParseState, Scanner.inCompound, hv]

/-- Inside an array or an object, a step after a value stays on the way through it. -/
theorem stateEndValue_inCompound (last : Json) (f : Frame) (ps : List Frame) (c : Char)
    (s1 : Scanner) (hn : stateEndValue last (f :: ps) c = some s1) :
    s1.inCompound = true := by
  unfold stateEndValue at hn
  refine of_ite_eq_some hn (fun _ hn => ?_) (fun _ hn => ?_)
  · cases hn; rfl
  · cases f with
    | arrayValue done =>
      refine of_ite_eq_some hn (fun _ hn => ?_) (fun _ hn => ?_)
      · cases hn; rfl
      · refine of_ite_eq_some hn (fun _ hn => ?_) (fun _ hn => ?_)
        · cases hn; exact popParseState_inCompound _ (by rfl) _
        · cases hn
    | objectKey done =>
      refine of_ite_eq_some hn (fun _ hn => ?_) (fun _ hn => ?_)
      · cases last <;> first | (cases hn; rfl) | cases hn
      · cases hn
    | objectValue done k =>
      refine of_ite_eq_some hn (fun _ hn => ?_) (fun _ hn => ?_)
      · cases hn; rfl
      · refine of_ite_eq_some hn (fun _ hn => ?_) (fun _ hn => ?_)
        · cases hn; exact popParseState_inCompound _ (by rfl) _
        · cases hn

/-- Inside an array or an object, a step at the beginning of a value stays on the way
through it. -/
theorem stateBeginValue_inCompound (f : Frame) (ps : List Frame) (c : Char)
    (s1 : Scanner) (hn : stateBeginValue (f :: ps) c = some s1) :
    s1.inCompound = true := by
  unfold stateBeginValue pushParseState at hn
  repeat' (first
    | refine of_ite_eq_some hn (fun _ hn => ?_) (fun _ hn => ?_)
    | (cases hn; rfl)
    | cases hn)

/-- Inside an object, a step before a key stays on the way through it. -/
theorem stateBeginString_inCompound (f : Frame) (ps : List Frame) (c : Char)
    (s1 : Scanner) (hn : stateBeginString (f :: ps) c = some s1) :
    s1.inCompound = true := by
  unfold stateBeginString at hn
  repeat' (first
    | refine of_ite_eq_some hn (fun _ hn => ?_) (fun _ hn => ?_)
    | (cases hn; rfl)
    | cases hn)

/-- Inside an array or an object, a step inside a number stays on the way through it. -/
theorem stateNumber_inCompound (st : NumState) (lit : List Char) (f : Frame)
    (ps : List Frame) (c : Char) (s1 : Scanner)
    (hn : stateNumber st lit (f :: ps) c = some s1) :
    s1.inCompound = true := by
  cases st
  all_goals
    unfold stateNumber at hn
    try unfold state0 at hn
    try unfold stateESign at hn
    repeat' (first
      | exact stateEndValue_inCompound _ _ _ _ _ hn
      | refine of_ite_eq_some hn (fun _ hn => ?_) (fun _ hn => ?_)
      | (cases hn; rfl)
      | cases hn)

/-- A step from a state on the way through an array or an object leads to such a state,
or to a top-level string, number or literal. -/
theorem next_inCompound (s s1 : Scanner) (c : Char) (h : s.inCompound = true)
    (hn : s.next c = some s1) : s1.inCompound = true ∨ s1.inScalar = true := by
  obtain ⟨step, ps⟩ := s
  cases ps with
  | nil =>
    cases step with
    | beginValue =>
      have hn : stateBeginValue [] c = some s1 := hn
      unfold stateBeginValue pushParseState at hn
      repeat' (first
        | refine of_ite_eq_some hn (fun _ hn => ?_) (fun _ hn => ?_)
        | (cases hn; exact Or.inl rfl)
        | (cases hn; exact Or.inr rfl)
        | cases hn)
    | endTop v =>
      have hn : stateEndTop v c = some s1 := hn
      rw [(stateEndTop_eq _ _ _ hn).1]
      exact Or.inl h
    | beginValueOrEmpty => exact absurd h (by simp [Scanner.inCompound])
    | beginString => exact absurd h (by simp [Scanner.inCompound])
    | beginStringOrEmpty => exact absurd h (by simp [Scanner.inCompound])
    | inString acc => exact absurd h (by simp [Scanner.inCompound])
    | inStringEsc acc => exact absurd h (by simp [Scanner.inCompound])
    | inStringEscU acc n code => exact absurd h (by simp [Scanner.inCompound])
    | inNumber st lit => exact absurd h (by simp [Scanner.inCompound])
    | inLiteral expect v => exact absurd h (by simp [Scanner.inCompound])
    | endValue last => exact absurd h (by simp [Scanner.inCompound])
  | cons f ps =>
    have hstack : ∀ s2 : Scanner, s2.parseState = f :: ps → s2.inCompound = true := by
      intro s2 h2
      simp [Scanner.inCompound, h2]
    cases step with
    | beginValue => exact Or.inl (stateBeginValue_inCompound _ _ _ _ hn)
    | beginValueOrEmpty =>
      have hn : stateBeginValueOrEmpty (f :: ps) c = some s1 := hn
      unfold stateBeginValueOrEmpty at hn
      refine of_ite_eq_some hn (fun _ hn => ?_) (fun _ hn => ?_)
      · cases hn; exact Or.inl rfl
      · refine of_ite_eq_some hn (fun _ hn => ?_) (fun _ hn => ?_)
        · cases f with
          | arrayValue done => cases hn; exact Or.inl (popParseState_inCompound _ (by rfl) _)
          | objectKey done => cases hn
          | objectValue done k => cases hn
        · exact Or.inl (stateBeginValue_inCompound _ _ _ _ hn)
    | beginString => exact Or.inl (stateBeginString_inCompound _ _ _ _ hn)
    | beginStringOrEmpty =>
      have hn : stateBeginStringOrEmpty (f :: ps) c = some s1 := hn
      unfold stateBeginStringOrEmpty at hn
      refine of_ite_eq_some hn (fun _ hn => ?_) (fun _ hn => ?_)
      · cases hn; exact Or.inl rfl
      · refine of_ite_eq_some hn (fun _ hn => ?_) (fun _ hn => ?_)
        · cases f with
          | arrayValue done => cases hn
          | objectKey done => cases hn; exact Or.inl (popParseState_inCompound _ (by rfl) _)
          | objectValue done k => cases hn
        · exact Or.inl (stateBeginString_inCompound _ _ _ _ hn)
    | inString acc => exact Or.inl (hstack _ (stateInString_stack _ _ _ _ hn))
    | inStringEsc acc => exact Or.inl (hstack _ (stateInStringEsc_stack _ _ _ _ hn))
    | inStringEscU acc n code =>
      exact Or.inl (hstack _ (stateInStringEscU_stack _ _ _ _ _ _ hn))
    | inNumber st lit => exact Or.inl (stateNumber_inCompound _ _ _ _ _ _ hn)
    | inLiteral expect v => exact Or.inl (hstack _ (stateLiteral_stack _ _ _ _ _ hn))
    | endValue last => exact Or.inl (stateEndValue_inCompound _ _ _ _ _ hn)
    | endTop v =>
      have hn : stateEndTop v c = some s1 := hn
      rw [(stateEndTop_eq _ _ _ hn).1]
      cases hv : v.isCompound <;> simp [Scanner.inCompound, Scanner.inScalar, hv]

/-- The invariant along a scan: the top-level value is an array or an object, or it is a
string, a number or a literal. -/
theorem scan_inCompound (a : List Char) :
    ∀ s s1 : Scanner, s.inCompound = true ∨ s.inScalar = true → scan s a = some s1 →
      s1.inCompound = true ∨ s1.inScalar = true := by
  induction a with
  | nil =>
    intro s s1 h hs
    simp only [scan, Option.some.injEq] at hs
    subst hs
    exact h
  | cons c cs ih =>
    intro s s1 h hs
    simp only [scan] at hs
    cases hn : s.next c with
    | none => simp [hn] at hs
    | some s2 =>
      simp only [hn] at hs
      refine ih s2 s1 ?_ hs
      rcases h with h | h
      · exact next_inCompound s s2 c h hn
      · exact Or.inr (next_inScalar s s2 c h hn)

/-- A scan that is at a top-level string, number or literal stays there. -/
theorem scan_inScalar (a : List Char) :
    ∀ s s1 : Scanner, s.inScalar = true → scan s a = some s1 → s1.inScalar = true := by
  induction a with
  | nil =>
    intro s s1 h hs
    simp only [scan, Option.some.injEq] at hs
    subst hs
    exact h
  | cons c cs ih =>
    intro s s1 h hs
    simp only [scan] at hs
    cases hn : s.next c with
    | none => simp [hn] at hs
    | some s2 =>
      simp only [hn] at hs
      exact ih s2 s1 (next_inScalar s s2 c h hn) hs

/-- At a top-level string, number or literal the end of input gives that kind of value. -/
theorem eof_inScalar (s : Scanner) (v : Json) (h : s.inScalar = true)
    (he : s.eof = some v) : v.isCompound = false := by
  have key : ∀ s1 : Scanner, s1.inScalar = true → ∀ w, s1.step = .endTop w →
      w.isCompound = false := by
    intro s1 h1 w hw
    obtain ⟨step, ps⟩ := s1
    simp only at hw
    subst hw
    simp only [Scanner.inScalar, Bool.and_eq_true, Bool.not_eq_true'] at h1
    exact h1.2
  unfold Scanner.eof at he
  split at he
  · rename_i w hw
    simp only [Option.some.injEq] at he
    subst he
    exact key s h _ hw
  · split at he
    · rename_i w ps hn
      simp only [Option.some.injEq] at he
      subst he
      exact key _ (next_inScalar s _ ' ' h hn) _ rfl
    · simp at he

/-- Inside an array or an object, a space does not complete the top-level value. -/
theorem next_space_not_endTop (step : Step) (f : Frame) (ps : List Frame) (s1 : Scanner)
    (hstep : ∀ v, step ≠ .endTop v) (hn : Scanner.next ⟨step, f :: ps⟩ ' ' = some s1) :
    ∀ v, s1.step ≠ .endTop v := by
  have hsp : isSpace ' ' = true := by decide
  cases step with
  | endTop v => exact absurd rfl (hstep v)
  | beginValue =>
    simp only [Scanner.next, stateBeginValue, hsp, if_true, Option.some.injEq] at hn
    subst hn; simp
  | beginValueOrEmpty =>
    simp only [Scanner.next, stateBeginValueOrEmpty, hsp, if_true, Option.some.injEq] at hn
    subst hn; simp
  | beginString =>
    simp only [Scanner.next, stateBeginString, hsp, if_true, Option.some.injEq] at hn
    subst hn; simp
  | beginStringOrEmpty =>
    simp only [Scanner.next, stateBeginStringOrEmpty, hsp, if_true, Option.some.injEq] at hn
    subst hn; simp
  | inString acc =>
    have h1 : stateInString acc (f :: ps) ' ' = some ⟨.inString (acc ++ [.chr ' ']), f :: ps⟩ := by
      rfl
    simp only [Scanner.next, h1, Option.some.injEq] at hn
    subst hn; simp
  | inStringEsc acc =>
    have h1 : stateInStringEsc acc (f :: ps) ' ' = none := by rfl
    simp [Scanner.next, h1] at hn
  | inStringEscU acc n code =>
    have h1 : stateInStringEscU acc n code (f :: ps) ' ' = none := by rfl
    simp [Scanner.next, h1] at hn
  | inNumber st lit =>
    have h1 : stateEndValue (.num (String.mk lit)) (f :: ps) ' ' =
        some ⟨.endValue (.num (String.mk lit)), f :: ps⟩ := by
      simp [stateEndValue, hsp]
    cases st <;> simp [Scanner.next, stateNumber, state0, stateESign, isDigit, isDigit19, h1] at hn
    all_goals (subst hn; simp)
  | inLiteral expect v =>
    simp only [Scanner.next] at hn
    have := stateLiteral_stack _ _ _ _ _ hn
    unfold stateLiteral at hn
    split at hn
    · simp at hn
    · split_ifs at hn
      simp only [Option.some.injEq] at hn
      subst hn; simp
    · split_ifs at hn
      simp only [Option.some.injEq] at hn
      subst hn; simp
  | endValue last =>
    simp only [Scanner.next, stateEndValue, hsp, if_true, Option.some.injEq] at hn
    subst hn; simp

/-- On the way through an array or an object, the end of input is accepted only after the
top-level value. -/
theorem eof_inCompound (s : Scanner) (v : Json) (h : s.inCompound = true)
    (he : s.eof = some v) : ∃ w, s.step = .endTop w := by
  by_cases htop : ∃ w, s.step = .endTop w
  · exact htop
  · exfalso
    have hstep : ∀ w, s.step ≠ .endTop w := fun w hw => htop ⟨w, hw⟩
    obtain ⟨step, ps⟩ := s
    simp only at hstep
    unfold Scanner.eof at he
    split at he
    · rename_i w hw
      exact hstep w hw
    · split at he
      · rename_i w ps1 hn
        cases ps with
        | cons f ps => exact next_space_not_endTop step f ps _ hstep hn w rfl
        | nil =>
          cases step <;> simp [Scanner.inCompound] at h
          · simp [Scanner.next, stateBeginValue, isSpace] at hn
          · exact hstep _ rfl
      · simp at he

/-- After the top-level value only space is accepted. -/
theorem scan_endTop (b : List Char) :
    ∀ (s s1 : Scanner) (w : Json), s.step = .endTop w → scan s b = some s1 →
      b.all isSpace = true := by
  induction b with
  | nil => intro s s1 w _ _; rfl
  | cons c cs ih =>
    intro s s1 w hw hs
    obtain ⟨step, ps⟩ := s
    simp only at hw
    subst hw
    simp only [scan, Scanner.next, stateEndTop] at hs
    by_cases hc : isSpace c = true
    · simp only [hc, if_true] at hs
      simp only [List.all_cons, hc, Bool.true_and]
      exact ih _ s1 w rfl hs
    · simp [hc] at hs

/-- Truncation: when a text is valid JSON and its value is an array or an object, every
prefix that leaves out more than trailing space is not valid JSON. -/
theorem parseJson_truncated (a b : List Char) (v : Json)
    (hfull : parseJson (String.mk (a ++ b)) = some v) (hv : v.isCompound = true)
    (hb : b.all isSpace = false) : parseJson (String.mk a) = none := by
  unfold parseJson at hfull ⊢
  simp only at hfull ⊢
  rw [scan_append] at hfull
  cases ha : scan Scanner.init a with
  | none => rfl
  | some s1 =>
    simp only [ha] at hfull
    cases hsb : scan s1 b with
    | none => simp [hsb] at hfull
    | some s2 =>
      simp only [hsb] at hfull
      have h1 := scan_inCompound a Scanner.init s1 (Or.inl rfl) ha
      cases he : s1.eof with
      | none => simp [he]
      | some w =>
        exfalso
        rcases h1 with h1 | h1
        · obtain ⟨w1, hw1⟩ := eof_inCompound s1 w h1 he
          have := scan_endTop b s1 s2 w1 hw1 hsb
          rw [this] at hb
          exact Bool.noConfusion hb
        · have h2 := scan_inScalar b s1 s2 h1 hsb
          have := eof_inScalar s2 v h2 hfull
          rw [this] at hv
          exact Bool.noConfusion hv

/-! ### Decoding a well-formed violation array -/

/-- Folding a step function over the members of an object, when each step extends what a
reader gives for the members so far. -/
theorem foldl_reader {A : Type} (f : A → String × Json → A)
    (R : List (String × Json) → A) (ms : List (String × Json))
    (hstep : ∀ pre k v post, ms = pre ++ (k, v) :: post →
      f (R pre) (k, v) = R (pre ++ [(k, v)])) :
    ms.foldl f (R []) = R ms := by
  have key : ∀ post pre, ms = pre ++ post → post.foldl f (R pre) = R ms := by
    intro post
    induction post with
    | nil => intro pre h; simp [h]
    | cons kv post ih =>
      intro pre h
      obtain ⟨k, v⟩ := kv
      simp only [List.foldl_cons]
      rw [hstep pre k v post h]
      exact ih (pre ++ [(k, v)]) (by simp [h])
  exact key ms [] rfl

/-- A key that occurs once: no member before it has that key, and it gives the value of
the key. -/
theorem unique_key (n : String) (pre post : List (String × Json)) (v : Json)
    (h : ((pre ++ (n, v) :: post).map Prod.fst).count n = 1) :
    pre.lookup n = none ∧ memberOf (pre ++ (n, v) :: post) n = v := by
  have h0 : (pre.map Prod.fst).count n = 0 := by
    simp only [List.map_append, List.map_cons, List.count_append, List.count_cons_self] at h
    omega
  have h1 : pre.lookup n = none := by
    rw [List.lookup_eq_none_iff]
    intro p hp
    rw [List.count_eq_zero] at h0
    simp only [bne_iff_ne, ne_eq]
    intro hn
    exact h0 (List.mem_map.2 ⟨p, hp, hn.symm⟩)
  refine ⟨h1, ?_⟩
  simp [memberOf, List.lookup_append, h1]

/-- Adding a member with another key does not change the value of a key. -/
theorem memberOf_append_ne (pre : List (String × Json)) (k n : String) (v : Json)
    (h : n ≠ k) : memberOf (pre ++ [(k, v)]) n = memberOf pre n := by
  have : ([(k, v)] : List (String × Json)).lookup n = none := by
    have hb : (n == k) = false := by simpa using h
    simp [List.lookup, hb]
  simp [memberOf, List.lookup_append, this]

/-- Adding a member with a new key gives the key that value. -/
theorem memberOf_append_new (pre : List (String × Json)) (k : String) (v : Json)
    (h : pre.lookup k = none) : memberOf (pre ++ [(k, v)]) k = v := by
  simp [memberOf, List.lookup_append, h]

/-- The value of a key no member has. -/
theorem memberOf_none (pre : List (String × Json)) (k : String)
    (h : pre.lookup k = none) : memberOf pre k = .null := by
  simp [memberOf, h]

/-- Decoding a JSON string into an empty Go string gives the string. -/
theorem storeString_typed (v : Json) (h : v.isStr = true) :
    storeString "" v = (v.strVal, true) := by
  cases v <;> simp [Json.isStr] at h
  rfl

/-- Decoding an array into fresh cells, when every element of it fits the zero value. -/
theorem arrayElems_typed {α : Type} (store : α → Json → α × Bool) (zero : α)
    (read : Json → α) :
    ∀ xs : List Json, (∀ x ∈ xs, store zero x = (read x, true)) →
      arrayElems store zero [] xs = (xs.map read, [], true) := by
  intro xs
  induction xs with
  | nil => intro _; rfl
  | cons x xs ih =>
    intro h
    have h1 := h x (List.mem_cons_self _ _)
    have h2 := ih (fun y hy => h y (List.mem_cons_of_mem _ hy))
    simp [arrayElems, h1, h2]

/-- Decoding an array into a nil slice, when every element of it fits the zero value. -/
theorem storeSlice_typed {α : Type} (store : α → Json → α × Bool) (zero : α)
    (read : Json → α) (xs : List Json) (h : ∀ x ∈ xs, store zero x = (read x, true)) :
    storeSlice store zero .nil (.arr xs) = (.mk (xs.map read) [], true) := by
  cases xs with
  | nil => rfl
  | cons x xs =>
    have := arrayElems_typed store zero read (x :: xs) h
    simp only [List.map_cons] at this
    simp [storeSlice, GoSlice.backing, this]

/-- Decoding a JSON array of strings into a nil slice gives the strings. -/
theorem storeStrings_typed (v : Json) (h : v.isStrs = true) :
    storeSlice storeString "" .nil v = (v.strsVal, true) := by
  cases v <;> simp [Json.isStrs] at h
  rename_i xs
  exact storeSlice_typed storeString "" Json.strVal xs
    (fun x hx => storeString_typed x (h x hx))

/-- A key that is no tag, in any letter case, selects no field. -/
theorem findField_none {F : Type} (fields : List (String × F)) (k : String)
    (h1 : k ∉ fields.map Prod.fst)
    (h2 : ∀ n ∈ fields.map Prod.fst, foldName n ≠ foldName k) :
    findField fields k = none := by
  have e1 : fields.find? (fun f => decide (f.1 = k)) = none := by
    rw [List.find?_eq_none]
    intro f hf
    simp only [decide_eq_true_eq]
    intro hk
    exact h1 (List.mem_map.2 ⟨f, hf, hk⟩)
  have e2 : fields.find? (fun f => decide (foldName f.1 = foldName k)) = none := by
    rw [List.find?_eq_none]
    intro f hf
    simp only [decide_eq_true_eq]
    exact h2 f.1 (List.mem_map.2 ⟨f, hf, rfl⟩)
  simp [findField, e1, e2]

/-- What `keysOk` says of one member: its key is a property name that no earlier member
has, and the member is the value of that name; or its key is no property name in any
letter case. -/
theorem keysOk_member (names : List String) (pre post : List (String × Json))
    (k : String) (v : Json) (hk : keysOk names (pre ++ (k, v) :: post) = true) :
    (k ∈ names ∧ pre.lookup k = none ∧ memberOf (pre ++ (k, v) :: post) k = v) ∨
    (k ∉ names ∧ ∀ n ∈ names, foldName n ≠ foldName k) := by
  simp only [keysOk, Bool.and_eq_true, List.all_eq_true, beq_iff_eq, Bool.or_eq_true,
    bne_iff_ne, ne_eq] at hk
  obtain ⟨hcount, hrest⟩ := hk
  by_cases hmem : k ∈ names
  · have := unique_key k pre post v (hcount k hmem)
    exact Or.inl ⟨hmem, this.1, this.2⟩
  · rcases hrest (k, v) (by simp) with h | h
    · exact absurd (by simpa using h) hmem
    · exact Or.inr ⟨hmem, h⟩

/-- Decoding a well-formed serialized node into the zero `Node` gives the node it stands
for. -/
theorem storeNode_typed (j : Json) (h : isViolationNode j = true) :
    storeNode Node.zero j = (readNode j, true) := by
  cases j <;> simp [isViolationNode] at h
  rename_i ms
  obtain ⟨⟨⟨⟨hkeys, t1⟩, t2⟩, t3⟩, t4⟩ := h
  show ms.foldl Node.setMember (Node.zero, true) = (readNodeMembers ms, true)
  refine foldl_reader Node.setMember (fun pre => (readNodeMembers pre, true)) ms ?_
  intro pre k v post hms
  subst hms
  rcases keysOk_member nodeNames pre post k v hkeys with ⟨hmem, hpre, hval⟩ | ⟨hmem, hfold⟩
  · simp only [nodeNames, nodeFields, List.map_cons, List.map_nil, List.mem_cons,
      List.mem_singleton, List.not_mem_nil, or_false] at hmem
    rcases hmem with rfl | rfl | rfl | rfl
    · have hf : findField nodeFields "impact" = some .impact := by decide
      rw [hval] at t1
      simp [Node.setMember, hf, readNodeMembers, memberOf_none _ _ hpre, Json.strVal,
        storeString_typed _ t1, memberOf_append_new _ _ _ hpre, memberOf_append_ne]
    · have hf : findField nodeFields "html" = some .html := by decide
      rw [hval] at t2
      simp [Node.setMember, hf, readNodeMembers, memberOf_none _ _ hpre, Json.strVal,
        storeString_typed _ t2, memberOf_append_new _ _ _ hpre, memberOf_append_ne]
    · have hf : findField nodeFields "target" = some .target := by decide
      rw [hval] at t3
      simp [Node.setMember, hf, readNodeMembers, memberOf_none _ _ hpre, Json.strsVal,
        storeStrings_typed _ t3, memberOf_append_new _ _ _ hpre, memberOf_append_ne]
    · have hf : findField nodeFields "failureSummary" = some .failureSummary := by decide
      rw [hval] at t4
      simp [Node.setMember, hf, readNodeMembers, memberOf_none _ _ hpre, Json.strVal,
        storeString_typed _ t4, memberOf_append_new _ _ _ hpre, memberOf_append_ne]
  · have hf : findField nodeFields k = none := findField_none nodeFields k hmem hfold
    simp only [nodeNames, nodeFields, List.map_cons, List.map_nil, List.mem_cons,
      List.mem_singleton, List.not_mem_nil, or_false, not_or] at hmem
    obtain ⟨n1, n2, n3, n4⟩ := hmem
    simp [Node.setMember, hf, readNodeMembers, memberOf_append_ne _ _ _ _ (Ne.symm n1),
      memberOf_append_ne _ _ _ _ (Ne.symm n2), memberOf_append_ne _ _ _ _ (Ne.symm n3),
      memberOf_append_ne _ _ _ _ (Ne.symm n4)]

/-- Decoding a JSON array of well-formed nodes into a nil slice gives the nodes. -/
theorem storeNodes_typed (v : Json) (h : v.isNodes = true) :
    storeSlice storeNode Node.zero .nil v = (v.nodesVal, true) := by
  cases v <;> simp [Json.isNodes] at h
  rename_i xs
  exact storeSlice_typed storeNode Node.zero readNode xs
    (fun x hx => storeNode_typed x (h x hx))

/-- Decoding a well-formed serialized violation into the zero `AxeResult` gives the
violation it stands for. -/
theorem storeAxeResult_typed (j : Json) (h : isViolation j = true) :
    storeAxeResult AxeResult.zero j = (readViolation j, true) := by
  cases j <;> simp [isViolation] at h
  rename_i ms
  obtain ⟨⟨⟨⟨⟨⟨⟨hkeys, t1⟩, t2⟩, t3⟩, t4⟩, t5⟩, t6⟩, t7⟩ := h
  show ms.foldl AxeResult.setMember (AxeResult.zero, true) = (readViolationMembers ms, true)
  refine foldl_reader AxeResult.setMember (fun pre => (readViolationMembers pre, true)) ms ?_
  intro pre k v post hms
  subst hms
  rcases keysOk_member axeNames pre post k v hkeys with ⟨hmem, hpre, hval⟩ | ⟨hmem, hfold⟩
  · simp only [axeNames, axeFields, List.map_cons, List.map_nil, List.mem_cons,
      List.mem_singleton, List.not_mem_nil, or_false] at hmem
    rcases hmem with rfl | rfl | rfl | rfl | rfl | rfl | rfl
    · have hf : findField axeFields "id" = some .id := by decide
      rw [hval] at t1
      simp [AxeResult.setMember, hf, readViolationMembers, memberOf_none _ _ hpre, Json.strVal,
        storeString_typed _ t1, memberOf_append_new _ _ _ hpre, memberOf_append_ne]
    · have hf : findField axeFields "impact" = some .impact := by decide
      rw [hval] at t2
      simp [AxeResult.setMember, hf, readViolationMembers, memberOf_none _ _ hpre, Json.strVal,
        storeString_typed _ t2, memberOf_append_new _ _ _ hpre, memberOf_append_ne]
    · have hf : findField axeFields "tags" = some .tags := by decide
      rw [hval] at t3
      simp [AxeResult.setMember, hf, readViolationMembers, memberOf_none _ _ hpre,
        Json.strsVal, storeStrings_typed _ t3, memberOf_append_new _ _ _ hpre,
        memberOf_append_ne]
    · have hf : findField axeFields "description" = some .description := by decide
      rw [hval] at t4
      simp [AxeResult.setMember, hf, readViolationMembers, memberOf_none _ _ hpre, Json.strVal,
        storeString_typed _ t4, memberOf_append_new _ _ _ hpre, memberOf_append_ne]
    · have hf : findField axeFields "help" = some .help := by decide
      rw [hval] at t5
      simp [AxeResult.setMember, hf, readViolationMembers, memberOf_none _ _ hpre, Json.strVal,
        storeString_typed _ t5, memberOf_append_new _ _ _ hpre, memberOf_append_ne]
    · have hf : findField axeFields "helpUrl" = some .helpUrl := by decide
      rw [hval] at t6
      simp [AxeResult.setMember, hf, readViolationMembers, memberOf_none _ _ hpre, Json.strVal,
        storeString_typed _ t6, memberOf_append_new _ _ _ hpre, memberOf_append_ne]
    · have hf : findField axeFields "nodes" = some .nodes := by decide
      rw [hval] at t7
      simp [AxeResult.setMember, hf, readViolationMembers, memberOf_none _ _ hpre,
        Json.nodesVal, storeNodes_typed _ t7, memberOf_append_new _ _ _ hpre,
        memberOf_append_ne]
  · have hf : findField axeFields k = none := findField_none axeFields k hmem hfold
    simp only [axeNames, axeFields, List.map_cons, List.map_nil, List.mem_cons,
      List.mem_singleton, List.not_mem_nil, or_false, not_or] at hmem
    obtain ⟨n1, n2, n3, n4, n5, n6, n7⟩ := hmem
    simp [AxeResult.setMember, hf, readViolationMembers,
      memberOf_append_ne _ _ _ _ (Ne.symm n1), memberOf_append_ne _ _ _ _ (Ne.symm n2),
      memberOf_append_ne _ _ _ _ (Ne.symm n3), memberOf_append_ne _ _ _ _ (Ne.symm n4),
      memberOf_append_ne _ _ _ _ (Ne.symm n5), memberOf_append_ne _ _ _ _ (Ne.symm n6),
      memberOf_append_ne _ _ _ _ (Ne.symm n7)]

/-- Decoding a well-formed serialized violation array gives, for each element in order,
the violation it stands for. -/
theorem Unmarshal_wellFormed (s : String) (h : isViolationArray s = true) :
    ∃ xs, parseJson s = some (.arr xs) ∧
      Unmarshal s .nil = .ok (.mk (xs.map readViolation) []) := by
  unfold isViolationArray at h
  split at h
  · rename_i xs hp
    refine ⟨xs, hp, ?_⟩
    simp only [List.all_eq_true] at h
    unfold Unmarshal
    rw [hp]
    simp [storeSlice_typed storeAxeResult AxeResult.zero readViolation xs
      (fun x hx => storeAxeResult_typed x (h x hx))]
  · simp at h

/-- The value tree of a node of the page is a well-formed serialized node, and stands for
the Go value with the same fields. -/
theorem toJson_node (n : ViolationNode) :
    isViolationNode n.toJson = true ∧ readNode n.toJson = n.toNode := by
  have hk : ∀ a b c d : Json, keysOk nodeNames
      [("impact", a), ("html", b), ("target", c), ("failureSummary", d)] = true := by
    intro a b c d
    simp [keysOk, nodeNames, nodeFields, List.count_cons]
  constructor
  · simp [isViolationNode, ViolationNode.toJson, hk, memberOf, List.lookup, Json.isStr,
      Json.isStrs]
  · simp [readNode, ViolationNode.toJson, readNodeMembers, memberOf, List.lookup, Json.strVal,
      Json.strsVal, ViolationNode.toNode, Function.comp_def]

/-- The value tree of a violation of the page is a well-formed serialized violation, and
stands for the Go value with the same fields. -/
theorem toJson_violation (v : Violation) :
    isViolation v.toJson = true ∧ readViolation v.toJson = v.toAxeResult := by
  have hk : ∀ a b c d e f g : Json, keysOk axeNames
      [("id", a), ("impact", b), ("tags", c), ("description", d), ("help", e),
       ("helpUrl", f), ("nodes", g)] = true := by
    intro a b c d e f g
    simp [keysOk, axeNames, axeFields, List.count_cons]
  have hn1 : ∀ x ∈ v.nodes, isViolationNode x.toJson = true := fun x _ => (toJson_node x).1
  have hn2 : v.nodes.map (readNode ∘ ViolationNode.toJson) = v.nodes.map ViolationNode.toNode :=
    List.map_congr_left (fun x _ => (toJson_node x).2)
  constructor
  · simp [isViolation, Violation.toJson, hk, memberOf, List.lookup, Json.isStr, Json.isStrs,
      Json.isNodes]
    exact hn1
  · simp [readViolation, Violation.toJson, readViolationMembers, memberOf, List.lookup,
      Json.strVal, Json.strsVal, Json.nodesVal, Violation.toAxeResult, Function.comp_def]
    simpa [Function.comp_def] using hn2

/-- The text `JSON.stringify` writes for a list of violations is a well-formed serialized
violation array. -/
theorem isViolationArray_jsonStringify (vs : List Violation) :
    isViolationArray (jsonStringify vs) = true := by
  simp [isViolationArray, parseJson_jsonStringify, toJson_violation]

/-- Round trip: decoding the text `JSON.stringify` writes for a list of violations gives
the Go values with the same fields, one per violation, in order. -/
theorem Unmarshal_jsonStringify (vs : List Violation) :
    Unmarshal (jsonStringify vs) .nil = .ok (.mk (vs.map Violation.toAxeResult) []) := by
  obtain ⟨xs, hp, hu⟩ := Unmarshal_wellFormed _ (isViolationArray_jsonStringify vs)
  rw [parseJson_jsonStringify] at hp
  simp only [Option.some.injEq, Json.arr.injEq] at hp
  subst hp
  rw [hu]
  have : (vs.map Violation.toJson).map readViolation = vs.map Violation.toAxeResult := by
    rw [List.map_map]
    exact List.map_congr_left (fun x _ => (toJson_violation x).2)
  rw [this]

/-- A well-formed serialized violation array is not the empty text. -/
theorem isViolationArray_ne_empty (s : String) (h : isViolationArray s = true) : s ≠ "" := by
  rintro rfl
  exact absurd h (by decide)

/-- C6: decoding a well-formed serialized violation array succeeds and gives one
`AxeResult` per element of the array, in order, whose id, impact, tags, description, help,
helpUrl and nodes (impact, html, target, failureSummary) are the values of the members of
these names; when the pipeline extracts such a text the handler answers 200 with these
values and their number as `count`.  The text `JSON.stringify` writes for any list of
violations is such an array and decodes to the same violations.  The array of the
specification's example is the text written for its one violation; it decodes to exactly
that violation, and the response has `count` 1. -/
theorem violations_round_trip :
    (∀ s : String, isViolationArray s = true →
      ∃ xs, parseJson s = some (.arr xs) ∧
        Unmarshal s .nil = .ok (.mk (xs.map readViolation) []) ∧
        ∀ (env : Env) (r : Request) (run : TaskResult), r.method = "GET" →
          chromedpRun env (targetURL r) env.start "" = some run → run.err = none →
          run.violationsJSON = s →
          analyzeHandler env r =
            some ⟨⟨200, .encoded ⟨targetURL r, env.timestamp,
                    .mk (xs.map readViolation) [], xs.length⟩⟩,
                  setupTrace env ++ run.trace⟩) ∧
    (∀ vs : List Violation,
      isViolationArray (jsonStringify vs) = true ∧
      Unmarshal (jsonStringify vs) .nil = .ok (.mk (vs.map Violation.toAxeResult) [])) ∧
    jsonStringify [exampleViolation] = exampleText ∧
    Unmarshal exampleText .nil =
      .ok (.mk [⟨"color-contrast", "serious", .mk ["wcag2aa"] [], "d", "h", "u",
                 .mk [⟨"serious", "<div/>", .mk ["#x"] [], "fix it"⟩] []⟩] []) ∧
    (analyzeHandler (Env.sample exampleText 2 3) ⟨"GET", [("url", "https://example.com")]⟩).map
        (fun o => o.response) =
      some ⟨200, .encoded ⟨"https://example.com", "2024-01-01T00:00:00Z",
        .mk [⟨"color-contrast", "serious", .mk ["wcag2aa"] [], "d", "h", "u",
              .mk [⟨"serious", "<div/>", .mk ["#x"] [], "fix it"⟩] []⟩] [], 1⟩⟩ := by
  refine ⟨?_, fun vs => ⟨isViolationArray_jsonStringify vs, Unmarshal_jsonStringify vs⟩,
    by rfl, by decide, by decide⟩
  intro s hs
  obtain ⟨xs, hp, hu⟩ := Unmarshal_wellFormed s hs
  refine ⟨xs, hp, hu, ?_⟩
  intro env r run hm hrun herr hvj
  rw [analyzeHandler_get env r hm run hrun]
  simp only [herr, hvj, isViolationArray_ne_empty s hs, if_false, hu]
  simp [GoSlice.len]

/-! ### Results that `json.Unmarshal` rejects -/

/-- Whether a value fits a Go string does not depend on what the string held. -/
theorem storeString_flag (old : String) (j : Json) :
    (storeString old j).2 = fitsString j := by
  cases j <;> rfl

/-- The elements of an array fit the cells exactly when each of them fits. -/
theorem arrayElems_flag {α : Type} (store : α → Json → α × Bool)
    (fitsElem : Json → Bool) (zero : α) (h : ∀ old j, (store old j).2 = fitsElem j) :
    ∀ (js : List Json) (cells : List α),
      (arrayElems store zero cells js).2.2 = js.all fitsElem := by
  intro js
  induction js with
  | nil => intro cells; rfl
  | cons j js ih =>
    intro cells
    simp [arrayElems, h, ih]

/-- A value fits a slice exactly when it is `null` or an array of values that fit. -/
theorem storeSlice_flag {α : Type} (store : α → Json → α × Bool)
    (fitsElem : Json → Bool) (zero : α) (h : ∀ old j, (store old j).2 = fitsElem j)
    (old : GoSlice α) (j : Json) :
    (storeSlice store zero old j).2 = fitsSlice fitsElem j := by
  cases j with
  | arr xs =>
    cases xs with
    | nil => rfl
    | cons x xs =>
      simp only [storeSlice, fitsSlice]
      exact arrayElems_flag store fitsElem zero h (x :: xs) old.backing
  | null => rfl
  | bool b => rfl
  | num n => rfl
  | str s => rfl
  | obj ms => rfl

/-- Storing one member into a `Node` keeps the flag exactly when the member fits. -/
theorem nodeSetMember_flag (acc : Node × Bool) (kv : String × Json) :
    (Node.setMember acc kv).2 = (acc.2 && nodeMemberFits kv) := by
  unfold Node.setMember nodeMemberFits
  cases findField nodeFields kv.1 with
  | none => simp
  | some f =>
    cases f <;> simp [storeString_flag, storeSlice_flag storeString fitsString "" storeString_flag]

/-- Storing the members of an object into a `Node` keeps the flag exactly when all of
them fit. -/
theorem nodeFoldl_flag (ms : List (String × Json)) :
    ∀ acc : Node × Bool,
      (ms.foldl Node.setMember acc).2 = (acc.2 && ms.all nodeMemberFits) := by
  induction ms with
  | nil => intro acc; simp
  | cons kv ms ih =>
    intro acc
    simp [ih, nodeSetMember_flag, Bool.and_assoc]

/-- Whether a value fits a `Node` does not depend on what the struct held. -/
theorem storeNode_flag (old : Node) (j : Json) : (storeNode old j).2 = fitsNode j := by
  cases j with
  | obj ms => simp [storeNode, fitsNode, nodeFoldl_flag]
  | null => rfl
  | bool b => rfl
  | num n => rfl
  | str s => rfl
  | arr xs => rfl

/-- Storing one member into an `AxeResult` keeps the flag exactly when the member fits. -/
theorem axeSetMember_flag (acc : AxeResult × Bool) (kv : String × Json) :
    (AxeResult.setMember acc kv).2 = (acc.2 && axeMemberFits kv) := by
  unfold AxeResult.setMember axeMemberFits
  cases findField axeFields kv.1 with
  | none => simp
  | some f =>
    cases f <;> simp [storeString_flag, storeSlice_flag storeString fitsString "" storeString_flag,
      storeSlice_flag storeNode fitsNode Node.zero storeNode_flag]

/-- Storing the members of an object into an `AxeResult` keeps the flag exactly when all
of them fit. -/
theorem axeFoldl_flag (ms : List (String × Json)) :
    ∀ acc : AxeResult × Bool,
      (ms.foldl AxeResult.setMember acc).2 = (acc.2 && ms.all axeMemberFits) := by
  induction ms with
  | nil => intro acc; simp
  | cons kv ms ih =>
    intro acc
    simp [ih, axeSetMember_flag, Bool.and_assoc]

/-- Whether a value fits an `AxeResult` does not depend on what the struct held. -/
theorem storeAxeResult_flag (old : AxeResult) (j : Json) :
    (storeAxeResult old j).2 = fitsAxeResult j := by
  cases j with
  | obj ms => simp [storeAxeResult, fitsAxeResult, axeFoldl_flag]
  | null => rfl
  | bool b => rfl
  | num n => rfl
  | str s => rfl
  | arr xs => rfl

/-- The texts `Unmarshal` rejects: those that are not valid JSON, and those whose value
does not have the types of a `[]AxeResult`. -/
theorem Unmarshal_error_iff (s : String) (v : GoSlice AxeResult) :
    (∃ e, Unmarshal s v = .error e) ↔
      (parseJson s = none ∨ ∃ j, parseJson s = some j ∧ fitsViolations j = false) := by
  unfold Unmarshal
  cases hp : parseJson s with
  | none => simp
  | some j =>
    have hf := storeSlice_flag storeAxeResult fitsAxeResult AxeResult.zero
      storeAxeResult_flag v j
    simp only [hf]
    cases hfit : fitsSlice fitsAxeResult j <;> simp [fitsViolations, hfit]

/-- When the pipeline succeeds, the handler answers 500 exactly when the text it decodes
is not valid JSON or its value does not have the types of a `[]AxeResult`, and 200
otherwise. -/
theorem result_rejected_iff (env : Env) (r : Request) (hm : r.method = "GET")
    (run : TaskResult) (hrun : chromedpRun env (targetURL r) env.start "" = some run)
    (herr : run.err = none) :
    ∃ o, analyzeHandler env r = some o ∧
      (o.response.status = 200 ∨ o.response.status = 500) ∧
      (o.response.status = 500 ↔
        (parseJson (if run.violationsJSON = "" then "[]" else run.violationsJSON) = none ∨
          ∃ j, parseJson (if run.violationsJSON = "" then "[]" else run.violationsJSON) =
              some j ∧ fitsViolations j = false)) := by
  rw [analyzeHandler_get env r hm run hrun, ← Unmarshal_error_iff _ .nil]
  simp only [herr]
  cases hu : Unmarshal (if run.violationsJSON = "" then "[]" else run.violationsJSON) .nil with
  | error e => exact ⟨_, rfl, Or.inr rfl, fun _ => ⟨e, rfl⟩, fun _ => rfl⟩
  | ok v =>
    refine ⟨_, rfl, Or.inl rfl, fun h => ?_, fun h => ?_⟩
    · simp at h
    · obtain ⟨e, he⟩ := h
      cases he

/-- C5, as amended: when the pipeline succeeds with a non-empty string that is a
truncated JSON array or object (a prefix of a valid one that leaves out more than trailing
space), or is not valid JSON for another reason, or is valid JSON whose value does not have
the types of a violation array (a value of the wrong JSON type at the top, at an element,
or at a member whose key names a field, at any depth), the string is not a well-formed
violation array and the handler answers status 500 with a text body that starts
`{"error": "Failed to parse results: `, after the external actions of the pipeline; it
emits no success body. -/
theorem malformed_result_is_parse_failure (env : Env) (r : Request) (hm : r.method = "GET")
    (run : TaskResult) (hrun : chromedpRun env (targetURL r) env.start "" = some run)
    (herr : run.err = none) (hne : run.violationsJSON ≠ "")
    (hbad :
      (∃ rest v, parseJson (String.mk (run.violationsJSON.data ++ rest)) = some v ∧
        v.isCompound = true ∧ rest.all isSpace = false) ∨
      parseJson run.violationsJSON = none ∨
      (∃ j, parseJson run.violationsJSON = some j ∧ fitsViolations j = false)) :
    isViolationArray run.violationsJSON = false ∧
    ∃ o, analyzeHandler env r = some o ∧
      o.response.status = 500 ∧
      (∃ rest, o.response.body = .text ("\x7b\"error\": \"Failed to parse results: " ++ rest)) ∧
      o.trace = setupTrace env ++ run.trace := by
  have hU : ∃ e, Unmarshal run.violationsJSON .nil = .error e := by
    rcases hbad with ⟨rest, v, hfull, hv, hrest⟩ | h | h
    · exact (Unmarshal_error_iff _ _).2
        (Or.inl (parseJson_truncated run.violationsJSON.data rest v hfull hv hrest))
    · exact (Unmarshal_error_iff _ _).2 (Or.inl h)
    · exact (Unmarshal_error_iff _ _).2 (Or.inr h)
  obtain ⟨e, he⟩ := hU
  refine ⟨?_, ?_⟩
  · cases hw : isViolationArray run.violationsJSON with
    | false => rfl
    | true =>
      obtain ⟨xs, _, hok⟩ := Unmarshal_wellFormed run.violationsJSON hw
      rw [he] at hok
      cases hok
  · rw [analyzeHandler_get env r hm run hrun]
    simp only [herr, hne, if_false, he, httpError]
    exact ⟨_, rfl, rfl,
      ⟨env.unmarshalErrorText run.violationsJSON ++ "\"\x7d" ++ "\n",
        by simp only [String.append_assoc]⟩, rfl⟩

/-- C5, witness: the array of the specification's example, cut inside its second member;
an array whose object has a number as `id`; and an array whose node has a nested array as
an element of `target`. -/
theorem malformed_result_is_parse_failure_witness :
    (∃ run, chromedpRun (Env.sample "[\x7b\"id\":\"color-contrast\",\"impact\":\"ser" 2 3)
        (targetURL ⟨"GET", [("url", "https://example.com")]⟩)
        (Env.sample "[\x7b\"id\":\"color-contrast\",\"impact\":\"ser" 2 3).start "" = some run ∧
      run.err = none ∧
      run.violationsJSON = "[\x7b\"id\":\"color-contrast\",\"impact\":\"ser" ∧
      String.mk (run.violationsJSON.data ++
        "ious\",\"tags\":[\"wcag2aa\"],\"description\":\"d\",\"help\":\"h\",\"helpUrl\":\"u\",\"nodes\":[\x7b\"impact\":\"serious\",\"html\":\"<div/>\",\"target\":[\"#x\"],\"failureSummary\":\"fix it\"\x7d]\x7d]".data)
        = exampleText ∧
      isViolationArray run.violationsJSON = false ∧
      ∃ o, analyzeHandler (Env.sample "[\x7b\"id\":\"color-contrast\",\"impact\":\"ser" 2 3)
          ⟨"GET", [("url", "https://example.com")]⟩ = some o ∧
        o.response.status = 500 ∧
        (∃ rest, o.response.body =
          .text ("\x7b\"error\": \"Failed to parse results: " ++ rest)) ∧
        o.trace =
          setupTrace (Env.sample "[\x7b\"id\":\"color-contrast\",\"impact\":\"ser" 2 3) ++
            run.trace) ∧
    (∃ run, chromedpRun (Env.sample "[\x7b\"id\":5\x7d]" 2 3)
        (targetURL ⟨"GET", [("url", "https://example.com")]⟩)
        (Env.sample "[\x7b\"id\":5\x7d]" 2 3).start "" = some run ∧
      run.err = none ∧
      run.violationsJSON = "[\x7b\"id\":5\x7d]" ∧
      isViolationArray run.violationsJSON = false ∧
      ∃ o, analyzeHandler (Env.sample "[\x7b\"id\":5\x7d]" 2 3)
          ⟨"GET", [("url", "https://example.com")]⟩ = some o ∧
        o.response.status = 500 ∧
        (∃ rest, o.response.body =
          .text ("\x7b\"error\": \"Failed to parse results: " ++ rest)) ∧
        o.trace = setupTrace (Env.sample "[\x7b\"id\":5\x7d]" 2 3) ++ run.trace) ∧
    (∃ run, chromedpRun (Env.sample "[\x7b\"nodes\":[\x7b\"target\":[[\"#a\",\"#b\"]]\x7d]\x7d]" 2 3)
        (targetURL ⟨"GET", [("url", "https://example.com")]⟩)
        (Env.sample "[\x7b\"nodes\":[\x7b\"target\":[[\"#a\",\"#b\"]]\x7d]\x7d]" 2 3).start "" =
          some run ∧
      run.err = none ∧
      run.violationsJSON = "[\x7b\"nodes\":[\x7b\"target\":[[\"#a\",\"#b\"]]\x7d]\x7d]" ∧
      isViolationArray run.violationsJSON = false ∧
      ∃ o, analyzeHandler (Env.sample "[\x7b\"nodes\":[\x7b\"target\":[[\"#a\",\"#b\"]]\x7d]\x7d]" 2 3)
          ⟨"GET", [("url", "https://example.com")]⟩ = some o ∧
        o.response.status = 500 ∧
        (∃ rest, o.response.body =
          .text ("\x7b\"error\": \"Failed to parse results: " ++ rest)) ∧
        o.trace =
          setupTrace (Env.sample "[\x7b\"nodes\":[\x7b\"target\":[[\"#a\",\"#b\"]]\x7d]\x7d]" 2 3) ++
            run.trace) := by
  refine ⟨?_, ?_, ?_⟩
  · obtain ⟨run, hrun, herr, hvj⟩ := taskResult_of_map
      (chromedpRun (Env.sample "[\x7b\"id\":\"color-contrast\",\"impact\":\"ser" 2 3)
        (targetURL ⟨"GET", [("url", "https://example.com")]⟩)
        (Env.sample "[\x7b\"id\":\"color-contrast\",\"impact\":\"ser" 2 3).start "")
      none "[\x7b\"id\":\"color-contrast\",\"impact\":\"ser" (by decide)
    have htext : String.mk (run.violationsJSON.data ++
        "ious\",\"tags\":[\"wcag2aa\"],\"description\":\"d\",\"help\":\"h\",\"helpUrl\":\"u\",\"nodes\":[\x7b\"impact\":\"serious\",\"html\":\"<div/>\",\"target\":[\"#x\"],\"failureSummary\":\"fix it\"\x7d]\x7d]".data)
        = exampleText := by rw [hvj]; rfl
    have hfull : parseJson exampleText = some (.arr [exampleViolation.toJson]) := by
      have h := parseJson_jsonStringify [exampleViolation]
      rwa [show jsonStringify [exampleViolation] = exampleText by rfl] at h
    exact ⟨run, hrun, herr, hvj, htext,
      malformed_result_is_parse_failure _ ⟨"GET", [("url", "https://example.com")]⟩ rfl run hrun
        herr (by rw [hvj]; decide)
        (Or.inl ⟨_, .arr [exampleViolation.toJson], by rw [htext]; exact hfull, rfl,
          by decide⟩)⟩
  · obtain ⟨run, hrun, herr, hvj⟩ := taskResult_of_map
      (chromedpRun (Env.sample "[\x7b\"id\":5\x7d]" 2 3)
        (targetURL ⟨"GET", [("url", "https://example.com")]⟩)
        (Env.sample "[\x7b\"id\":5\x7d]" 2 3).start "")
      none "[\x7b\"id\":5\x7d]" (by decide)
    exact ⟨run, hrun, herr, hvj,
      malformed_result_is_parse_failure _ ⟨"GET", [("url", "https://example.com")]⟩ rfl run hrun
        herr (by rw [hvj]; decide)
        (Or.inr (Or.inr (by rw [hvj]; exact Option.map_eq_some'.1 (by decide))))⟩
  · obtain ⟨run, hrun, herr, hvj⟩ := taskResult_of_map
      (chromedpRun (Env.sample "[\x7b\"nodes\":[\x7b\"target\":[[\"#a\",\"#b\"]]\x7d]\x7d]" 2 3)
        (targetURL ⟨"GET", [("url", "https://example.com")]⟩)
        (Env.sample "[\x7b\"nodes\":[\x7b\"target\":[[\"#a\",\"#b\"]]\x7d]\x7d]" 2 3).start "")
      none "[\x7b\"nodes\":[\x7b\"target\":[[\"#a\",\"#b\"]]\x7d]\x7d]" (by decide)
    exact ⟨run, hrun, herr, hvj,
      malformed_result_is_parse_failure _ ⟨"GET", [("url", "https://example.com")]⟩ rfl run hrun
        herr (by rw [hvj]; decide)
        (Or.inr (Or.inr (by rw [hvj]; exact Option.map_eq_some'.1 (by decide))))⟩

end Analyser
